import Mathlib

/-!
Verification development for the Spine Assets Optimizer repository.

The definitions below are a shallow embedding, in Lean 4, of the parts of the
TypeScript source that the verified properties concern:

* src/utils/atlasPacker.ts    (MaxRects packing, pagination, efficiency)
* src/unnamed/part_001        (optimization planner, resize fallback, zip)
* src/utils/spineParser.ts    (scale timeline sampling, image lookup,
                               global stat aggregation)
* src/utils/atlasParser.ts    (atlas manifest parsing)
* src/unnamed/part_004        (oversized asset report)

JavaScript numbers are modelled as Int where the program only ever produces
integers (pixel sizes, coordinates) and as Rat where fractional values occur
(scales, times, efficiency percentages).  JavaScript Map objects are modelled
as insertion ordered association lists with an overwriting set operation.
Array.prototype.sort is modelled by a stable insertion sort, which matches the
observable contract of the host sort (stable, sorted by the comparator).
-/

namespace SpineOpt

/-! ## JavaScript Map model

A JS Map keeps keys unique and remembers insertion order; set on an existing
key overwrites the value in place, set on a fresh key appends.  jsGet returns
the value of the first (and, for maps built by mapSet, only) matching entry. -/

def jsGet {β : Type} (m : List (String × β)) (k : String) : Option β :=
  match m with
  | [] => none
  | (k', v) :: rest => if k' = k then some v else jsGet rest k

def mapSet {β : Type} (m : List (String × β)) (k : String) (v : β) :
    List (String × β) :=
  if (jsGet m k).isSome then
    m.map (fun p => if p.1 = k then (k, v) else p)
  else
    m ++ [(k, v)]

theorem jsGet_cons {β : Type} (pk : String) (pv : β) (rest : List (String × β))
    (k : String) :
    jsGet ((pk, pv) :: rest) k = if pk = k then some pv else jsGet rest k := rfl

theorem jsGet_append {β : Type} (m₁ m₂ : List (String × β)) (k : String) :
    jsGet (m₁ ++ m₂) k = ((jsGet m₁ k).or (jsGet m₂ k)) := by
  induction m₁ with
  | nil => simp [jsGet]
  | cons p rest ih =>
    obtain ⟨pk, pv⟩ := p
    by_cases hk : pk = k
    · simp [jsGet_cons, hk]
    · simp [jsGet_cons, hk, ih]

theorem jsGet_mapReplace {β : Type} (m : List (String × β)) (k k' : String)
    (v : β) :
    jsGet (m.map (fun p => if p.1 = k then (k, v) else p)) k' =
      if k' = k then (if (jsGet m k).isSome then some v else none)
      else jsGet m k' := by
  induction m with
  | nil => simp [jsGet]
  | cons p rest ih =>
    obtain ⟨pk, pv⟩ := p
    simp only [List.map_cons]
    by_cases hk : pk = k
    · rw [if_pos hk, jsGet_cons, jsGet_cons, hk]
      by_cases hk' : k' = k
      · simp [hk', jsGet_cons]
      · rw [ih, if_neg hk']
        simp [jsGet_cons, hk', show ¬ k = k' from fun h => hk' h.symm]
    · rw [if_neg hk, jsGet_cons, jsGet_cons]
      by_cases hk' : pk = k'
      · have hne : ¬ k' = k := fun h => hk (hk'.trans h)
        simp [hk', hne, jsGet_cons, hk]
      · simp [hk', ih, jsGet_cons, hk]

theorem jsGet_mapSet_self {β : Type} (m : List (String × β)) (k : String) (v : β) :
    jsGet (mapSet m k v) k = some v := by
  unfold mapSet
  by_cases h : (jsGet m k).isSome
  · simp [h, jsGet_mapReplace]
  · have hnone : jsGet m k = none := by
      cases hg : jsGet m k with
      | none => rfl
      | some v' => rw [hg] at h; simp at h
    simp [h, jsGet_append, hnone, jsGet]

theorem jsGet_mapSet_ne {β : Type} (m : List (String × β)) (k k' : String)
    (v : β) (h : k' ≠ k) : jsGet (mapSet m k v) k' = jsGet m k' := by
  unfold mapSet
  by_cases hs : (jsGet m k).isSome
  · simp [hs, jsGet_mapReplace, h]
  · rw [if_neg hs, jsGet_append]
    cases hg : jsGet m k' with
    | some v' => simp [hg]
    | none => simp [hg, jsGet_cons, jsGet, Ne.symm h]

/-! ## Stable sort model

Array.prototype.sort with a consistent comparator is stable and produces a
list ordered by the comparator; any stable sorting algorithm realises that
contract, and we use a stable insertion sort. -/

def insertS {α : Type} (le : α → α → Bool) (x : α) : List α → List α
  | [] => [x]
  | y :: ys => if le x y then x :: y :: ys else y :: insertS le x ys

def sortS {α : Type} (le : α → α → Bool) (l : List α) : List α :=
  l.foldr (insertS le) []

theorem mem_insertS {α : Type} (le : α → α → Bool) (x a : α) (l : List α) :
    a ∈ insertS le x l ↔ a = x ∨ a ∈ l := by
  induction l with
  | nil => simp [insertS]
  | cons y ys ih =>
    by_cases h : le x y
    · simp [insertS, h]
    · simp [insertS, h, ih]
      tauto

theorem mem_sortS {α : Type} (le : α → α → Bool) (a : α) (l : List α) :
    a ∈ sortS le l ↔ a ∈ l := by
  induction l with
  | nil => simp [sortS]
  | cons y ys ih =>
    simp only [sortS, List.foldr] at *
    rw [mem_insertS]
    simp [ih]

/-! ## Data model shared by planner and packer -/

/-- Opaque stand-in for an image blob (a File or Blob object in the source);
only identity matters to the verified properties. -/
structure Blob where
  val : Nat
deriving DecidableEq, Repr

/-- OptimizationTask from src/types, as produced by calculateOptimizationTargets
in src/unnamed/part_001 and consumed by the packer and the zip generator. -/
structure OptimizationTask where
  fileName : String
  relativePath : String
  originalWidth : Int
  originalHeight : Int
  targetWidth : Int
  targetHeight : Int
  blob : Blob
  maxScaleUsed : Rat
  isResize : Bool
  overridePercentage : Option Rat
deriving DecidableEq, Repr

/-! ## Atlas packer (src/utils/atlasPacker.ts) -/

namespace Packer

/-- Free rectangle record of the MaxRects packer. -/
structure Rect where
  x : Int
  y : Int
  width : Int
  height : Int
deriving DecidableEq, Repr

/-- PackedRect emitted by MaxRectsPacker.insert. -/
structure PackedRect where
  x : Int
  y : Int
  w : Int
  h : Int
  task : OptimizationTask
deriving DecidableEq, Repr

/-- AtlasPage emitted by packAtlases. -/
structure AtlasPage where
  id : Nat
  width : Int
  height : Int
  items : List PackedRect
  efficiency : Rat
deriving DecidableEq, Repr, Inhabited

/-- MaxRectsPacker.findBestNode: best short side fit over the free list, first
free rectangle winning ties; returns the score together with the chosen node
(placed at the free rectangle corner with the requested size), or none when no
free rectangle contains the request (the Number.MAX_VALUE sentinel). -/
def bestNodeStep (w h : Int) (best : Option (Int × Rect)) (free : Rect) :
    Option (Int × Rect) :=
  if free.width ≥ w ∧ free.height ≥ h then
    let shortSideFit := min |free.width - w| |free.height - h|
    match best with
    | none => some (shortSideFit, ⟨free.x, free.y, w, h⟩)
    | some (bestScore, _) =>
        if shortSideFit < bestScore then
          some (shortSideFit, ⟨free.x, free.y, w, h⟩)
        else best
  else best

def findBestNode (freeRects : List Rect) (w h : Int) : Option (Int × Rect) :=
  freeRects.foldl (bestNodeStep w h) none

/-- MaxRectsPacker.splitFreeNode: none when the used node does not overlap the
free node (the source returns false and leaves the free node in place); some
strips when it does (the source returns true, the free node is removed and the
residual top, bottom, left and right strips are appended). -/
def splitFreeNode (freeNode usedNode : Rect) : Option (List Rect) :=
  if usedNode.x ≥ freeNode.x + freeNode.width ∨
     usedNode.x + usedNode.width ≤ freeNode.x ∨
     usedNode.y ≥ freeNode.y + freeNode.height ∨
     usedNode.y + usedNode.height ≤ freeNode.y then
    none
  else
    some (
      (if usedNode.x < freeNode.x + freeNode.width ∧
          usedNode.x + usedNode.width > freeNode.x then
        (if usedNode.y > freeNode.y ∧ usedNode.y < freeNode.y + freeNode.height
         then [⟨freeNode.x, freeNode.y, freeNode.width, usedNode.y - freeNode.y⟩]
         else []) ++
        (if usedNode.y + usedNode.height < freeNode.y + freeNode.height
         then [⟨freeNode.x, usedNode.y + usedNode.height, freeNode.width,
                freeNode.y + freeNode.height - (usedNode.y + usedNode.height)⟩]
         else [])
       else []) ++
      (if usedNode.y < freeNode.y + freeNode.height ∧
          usedNode.y + usedNode.height > freeNode.y then
        (if usedNode.x > freeNode.x ∧ usedNode.x < freeNode.x + freeNode.width
         then [⟨freeNode.x, freeNode.y, usedNode.x - freeNode.x, freeNode.height⟩]
         else []) ++
        (if usedNode.x + usedNode.width < freeNode.x + freeNode.width
         then [⟨usedNode.x + usedNode.width, freeNode.y,
                freeNode.x + freeNode.width - (usedNode.x + usedNode.width),
                freeNode.height⟩]
         else [])
       else []))

/-- MaxRectsPacker.isContained: a lies inside b. -/
def isContained (a b : Rect) : Bool :=
  decide (a.x ≥ b.x ∧ a.y ≥ b.y ∧
          a.x + a.width ≤ b.x + b.width ∧
          a.y + a.height ≤ b.y + b.height)

/-- Inner loop of MaxRectsPacker.pruneFreeList for a fixed element x against
the tail: returns the surviving tail and whether x itself survives.  When some
later rectangle contains x, x is dropped and the not yet visited part of the
tail is returned unchanged (the source breaks out of the inner loop); later
rectangles contained in x are dropped as the scan passes them. -/
def pruneInner (x : Rect) : List Rect → List Rect × Bool
  | [] => ([], true)
  | y :: ys =>
      if isContained x y then (y :: ys, false)
      else if isContained y x then pruneInner x ys
      else
        let r := pruneInner x ys
        (y :: r.1, r.2)

/-- Outer loop of MaxRectsPacker.pruneFreeList.  Each step either keeps the
head (moving past it) or drops it, always recursing on a list no longer than
the tail, so a fuel equal to the initial length is always sufficient and the
fuel exhausted branch is unreachable. -/
def pruneAux : Nat → List Rect → List Rect
  | _, [] => []
  | 0, l => l
  | fuel + 1, x :: ys =>
      match pruneInner x ys with
      | (t, true) => x :: pruneAux fuel t
      | (t, false) => pruneAux fuel t

/-- MaxRectsPacker.pruneFreeList: remove every free rectangle contained in
another free rectangle. -/
def pruneFreeList (l : List Rect) : List Rect :=
  pruneAux l.length l

/-- MaxRectsPacker.placeRect: split every free rectangle that overlaps the
placed rectangle into its residual strips, then prune.  The source pushes the
strips while iterating and revisits them, but a strip never overlaps the used
node (each strip is bounded by one of its edges), so the revisits keep them;
the loop therefore produces exactly the kept originals in order followed by
all strips in split order. -/
def placeRect (used : Rect) (free : List Rect) : List Rect :=
  pruneFreeList
    ((free.filter (fun f => (splitFreeNode f used).isNone)) ++
     (free.filterMap (fun f => splitFreeNode f used)).flatten)

/-- MaxRectsPacker.insert, with the packer state (the free list) passed
explicitly: pad the request, find the best node, emit the PackedRect at the
node position with the unpadded task size, and consume the padded node. -/
def insert (padding : Int) (free : List Rect) (task : OptimizationTask) :
    Option (PackedRect × List Rect) :=
  let requiredW := task.targetWidth + padding
  let requiredH := task.targetHeight + padding
  match findBestNode free requiredW requiredH with
  | none => none
  | some (_, bestRect) =>
      some (⟨bestRect.x, bestRect.y, task.targetWidth, task.targetHeight, task⟩,
            placeRect bestRect free)

/-- Body of the task loop of packAtlases: skip tasks larger than the page on
either axis, insert the rest, collecting placed rectangles and the tasks that
did not fit.  The state is (free list, page items, didntFit). -/
def fillStep (maxSize padding : Int)
    (st : List Rect × List PackedRect × List OptimizationTask)
    (task : OptimizationTask) :
    List Rect × List PackedRect × List OptimizationTask :=
  if task.targetWidth > maxSize ∨ task.targetHeight > maxSize then st
  else
    match insert padding st.1 task with
    | some (r, free') => (free', st.2.1 ++ [r], st.2.2)
    | none => (st.1, st.2.1, st.2.2 ++ [task])

/-- One page filling pass of packAtlases: walk the remaining tasks in order
starting from a single free rectangle covering the whole page. -/
def fillPage (maxSize padding : Int) (tasks : List OptimizationTask) :
    List PackedRect × List OptimizationTask :=
  let st := tasks.foldl (fillStep maxSize padding) ([⟨0, 0, maxSize, maxSize⟩], [], [])
  (st.2.1, st.2.2)

/-- Pagination loop of packAtlases.  Every iteration that continues strictly
shrinks the remaining list (placed tasks leave it, oversized tasks are dropped,
and the loop breaks when nothing was placed and nothing was dropped), so a fuel
of one more than the task count always suffices and the fuel exhausted branch
is unreachable.  Division by zero in the efficiency (page size zero) yields 0
where the host arithmetic yields NaN; no verified property reads that value. -/
def packLoop (maxSize padding : Int) : Nat → List OptimizationTask → Nat →
    List AtlasPage
  | _, [], _ => []
  | 0, _ :: _, _ => []
  | fuel + 1, a :: as, idx =>
      let filled := fillPage maxSize padding (a :: as)
      let usedArea : Int := (filled.1.map (fun p => p.w * p.h)).sum
      let efficiency := ((usedArea : Rat) / ((maxSize : Rat) * (maxSize : Rat))) * 100
      let page : AtlasPage := ⟨idx, maxSize, maxSize, filled.1, efficiency⟩
      if filled.1 = [] ∧ filled.2.length = (a :: as).length then [page]
      else page :: packLoop maxSize padding fuel filled.2 (idx + 1)

/-- packAtlases from src/utils/atlasPacker.ts: sort the tasks by decreasing
target height (stable) and fill pages until everything is placed or nothing
more fits. -/
def packAtlases (tasks : List OptimizationTask) (maxSize padding : Int) :
    List AtlasPage :=
  let sortedTasks := sortS (fun a b => decide (b.targetHeight ≤ a.targetHeight)) tasks
  packLoop maxSize padding (tasks.length + 1) sortedTasks 0

/-- Oversized asset report of the atlas preview component (src/unnamed/part_004):
tasks whose dimensions on the selected axis set exceed the page size. -/
def oversizedAssets (tasks : List OptimizationTask) (maxSize : Int)
    (isOptimized : Bool) : List OptimizationTask :=
  tasks.filter (fun t =>
    decide ((if isOptimized then t.targetWidth else t.originalWidth) > maxSize ∨
            (if isOptimized then t.targetHeight else t.originalHeight) > maxSize))

/-! ### Packer lemmas -/

theorem insert_some_spec (padding : Int) (free : List Rect)
    (task : OptimizationTask) (r : PackedRect) (free' : List Rect)
    (h : insert padding free task = some (r, free')) :
    r.task = task ∧ r.w = task.targetWidth ∧ r.h = task.targetHeight := by
  simp only [insert] at h
  cases hf : findBestNode free (task.targetWidth + padding)
      (task.targetHeight + padding) with
  | none => rw [hf] at h; simp at h
  | some best =>
      obtain ⟨score, bestRect⟩ := best
      rw [hf] at h
      simp only [Option.some.injEq, Prod.mk.injEq] at h
      obtain ⟨hr, _⟩ := h
      rw [← hr]
      exact ⟨rfl, rfl, rfl⟩

theorem foldl_fillStep_fits (maxSize padding : Int)
    (tasks : List OptimizationTask) :
    ∀ st : List Rect × List PackedRect × List OptimizationTask,
      (∀ r ∈ st.2.1, r.task.targetWidth ≤ maxSize ∧
        r.task.targetHeight ≤ maxSize) →
      ∀ r ∈ (tasks.foldl (fillStep maxSize padding) st).2.1,
        r.task.targetWidth ≤ maxSize ∧ r.task.targetHeight ≤ maxSize := by
  induction tasks with
  | nil => intro st h; simpa using h
  | cons t ts ih =>
    intro st h
    simp only [List.foldl_cons]
    apply ih
    intro r hr
    unfold fillStep at hr
    by_cases hskip : (t.targetWidth > maxSize ∨ t.targetHeight > maxSize)
    · rw [if_pos hskip] at hr
      exact h r hr
    · rw [if_neg hskip] at hr
      push_neg at hskip
      cases hi : insert padding st.1 t with
      | none =>
          rw [hi] at hr
          exact h r hr
      | some pr =>
          obtain ⟨rr, freeNext⟩ := pr
          rw [hi] at hr
          simp only [List.mem_append, List.mem_singleton] at hr
          rcases hr with hr | hr
          · exact h r hr
          · have hspec := (insert_some_spec padding st.1 t rr freeNext hi).1
            rw [hr, hspec]
            exact hskip

theorem fillPage_fits (maxSize padding : Int) (tasks : List OptimizationTask)
    (r : PackedRect) (hr : r ∈ (fillPage maxSize padding tasks).1) :
    r.task.targetWidth ≤ maxSize ∧ r.task.targetHeight ≤ maxSize := by
  unfold fillPage at hr
  exact foldl_fillStep_fits maxSize padding tasks _ (by simp) r hr

theorem packLoop_items (maxSize padding : Int) :
    ∀ (fuel : Nat) (remaining : List OptimizationTask) (idx : Nat)
      (page : AtlasPage), page ∈ packLoop maxSize padding fuel remaining idx →
      ∃ rem, page.items = (fillPage maxSize padding rem).1 := by
  intro fuel
  induction fuel with
  | zero =>
    intro remaining idx page h
    cases remaining with
    | nil => simp [packLoop] at h
    | cons a as => simp [packLoop] at h
  | succ n ih =>
    intro remaining idx page h
    cases remaining with
    | nil => simp [packLoop] at h
    | cons a as =>
      rw [packLoop] at h
      by_cases hc : ((fillPage maxSize padding (a :: as)).1 = [] ∧
          (fillPage maxSize padding (a :: as)).2.length = (a :: as).length)
      · rw [if_pos hc] at h
        simp only [List.mem_singleton] at h
        subst h
        exact ⟨a :: as, rfl⟩
      · rw [if_neg hc] at h
        simp only [List.mem_cons] at h
        rcases h with h | h
        · subst h
          exact ⟨a :: as, rfl⟩
        · exact ih _ _ page h

/-! ### Concrete tasks used in the packer scenarios -/

def taskA1024 : OptimizationTask :=
  ⟨"A", "A", 1024, 1024, 1024, 1024, ⟨0⟩, 1, true, none⟩

def taskB1024 : OptimizationTask :=
  ⟨"B", "B", 1024, 1024, 1024, 1024, ⟨1⟩, 1, true, none⟩

def taskOversized : OptimizationTask :=
  ⟨"C", "C", 2200, 100, 2200, 100, ⟨2⟩, 1, false, none⟩

/-- C3 counterexample: packing two 1024 by 1024 tasks with page size 2048 and
padding 2 yields two pages of one rectangle each with efficiency 25 percent,
not the single page with two rectangles and 50 percent efficiency that the
claim states.  The padded request is 1026 by 1026, and after the first task is
placed the residual free rectangles are 2048 by 1022 and 1022 by 2048, neither
of which contains another 1026 by 1026 request. -/
theorem C3_counterexample :
    (packAtlases [taskA1024, taskB1024] 2048 2).length = 2 ∧
    (packAtlases [taskA1024, taskB1024] 2048 2).map (fun p => p.items.length) =
      [1, 1] := by
  decide

/-- C3 (amended): packing the task list [A: 1024 by 1024, B: 1024 by 1024]
with page size 2048 and padding 2 produces exactly two pages, each containing
one PackedRect placed at the page origin, each with reported efficiency
(1024 times 1024) over (2048 times 2048), that is 25 percent. -/
theorem C3_two_half_pages :
    (packAtlases [taskA1024, taskB1024] 2048 2).map
        (fun p => (p.id, p.width, p.height, p.items)) =
      [(0, 2048, 2048, [⟨0, 0, 1024, 1024, taskA1024⟩]),
       (1, 2048, 2048, [⟨0, 0, 1024, 1024, taskB1024⟩])] ∧
    (packAtlases [taskA1024, taskB1024] 2048 2).map (fun p => p.efficiency) =
      [25, 25] := by
  constructor
  · decide
  · have h : (packAtlases [taskA1024, taskB1024] 2048 2).map
        (fun p => p.efficiency) =
        [((1048576 : Int) : Rat) / ((2048 : Rat) * (2048 : Rat)) * 100,
         ((1048576 : Int) : Rat) / ((2048 : Rat) * (2048 : Rat)) * 100] := rfl
    rw [h]
    norm_num

/-- C4: a task whose target width or height exceeds the page size is placed on
no page of the packAtlases result (it appears in no PackedRect) and is listed
by the oversized asset report (oversizedAssets in the atlas preview component,
which surfaces the packer exclusion to the user). -/
theorem C4_oversized_excluded_and_reported
    (tasks : List OptimizationTask) (maxSize padding : Int)
    (t : OptimizationTask) (hmem : t ∈ tasks)
    (hbig : t.targetWidth > maxSize ∨ t.targetHeight > maxSize) :
    (∀ page ∈ packAtlases tasks maxSize padding,
      ∀ r ∈ page.items, r.task ≠ t) ∧
    t ∈ oversizedAssets tasks maxSize true := by
  constructor
  · intro page hpage r hr heq
    obtain ⟨rem, hitems⟩ := packLoop_items maxSize padding _ _ _ page hpage
    rw [hitems] at hr
    have hfit := fillPage_fits maxSize padding rem r hr
    rw [heq] at hfit
    rcases hbig with hbig | hbig
    · exact absurd hfit.1 (not_le.mpr hbig)
    · exact absurd hfit.2 (not_le.mpr hbig)
  · unfold oversizedAssets
    rw [List.mem_filter]
    exact ⟨hmem, by simpa using hbig⟩

/-- Witness for C4 at the oversize rejection scenario of the specification:
the 2200 by 100 task with page size 2048 lands in no PackedRect and is
reported as oversized. -/
theorem C4_witness :
    (∀ page ∈ packAtlases [taskOversized] 2048 2,
      ∀ r ∈ page.items, r.task ≠ taskOversized) ∧
    taskOversized ∈ oversizedAssets [taskOversized] 2048 true :=
  C4_oversized_excluded_and_reported [taskOversized] 2048 2 taskOversized
    (by decide) (by decide)

/-! ### Packing geometry: no two padded rectangles overlap (claim C5) -/

/-- A PackedRect inflated by the padding on its right and bottom edges; this
is exactly the node the packer consumed when it placed the rectangle. -/
def padRect (padding : Int) (r : PackedRect) : Rect :=
  ⟨r.x, r.y, r.w + padding, r.h + padding⟩

/-- Two rectangles overlap when the interiors of their coordinate ranges
intersect on both axes. -/
def rOverlap (a b : Rect) : Prop :=
  max a.x b.x < min (a.x + a.width) (b.x + b.width) ∧
  max a.y b.y < min (a.y + a.height) (b.y + b.height)

instance (a b : Rect) : Decidable (rOverlap a b) := by
  unfold rOverlap; infer_instance

/-- The coordinate ranges of a lie inside those of b. -/
def subRect (a b : Rect) : Prop :=
  b.x ≤ a.x ∧ a.x + a.width ≤ b.x + b.width ∧
  b.y ≤ a.y ∧ a.y + a.height ≤ b.y + b.height

theorem subRect_refl (a : Rect) : subRect a a := by
  unfold subRect; omega

theorem rOverlap_comm {a b : Rect} (h : rOverlap a b) : rOverlap b a := by
  unfold rOverlap at *; omega

theorem subRect_overlap_mono {a b X : Rect} (hsub : subRect a b)
    (h : rOverlap a X) : rOverlap b X := by
  unfold subRect at hsub; unfold rOverlap at *; omega

theorem bestNodeStep_cases (w h : Int) (acc : Option (Int × Rect)) (f : Rect) :
    bestNodeStep w h acc f = acc ∨
    (w ≤ f.width ∧ h ≤ f.height ∧
      ∃ s, bestNodeStep w h acc f = some (s, ⟨f.x, f.y, w, h⟩)) := by
  unfold bestNodeStep
  by_cases hfit : (f.width ≥ w ∧ f.height ≥ h)
  · rw [if_pos hfit]
    cases acc with
    | none => exact .inr ⟨hfit.1, hfit.2, _, rfl⟩
    | some p =>
        obtain ⟨bs, br⟩ := p
        dsimp only
        by_cases hlt : min |f.width - w| |f.height - h| < bs
        · rw [if_pos hlt]
          exact .inr ⟨hfit.1, hfit.2, _, rfl⟩
        · rw [if_neg hlt]
          exact .inl rfl
  · rw [if_neg hfit]
    exact .inl rfl

theorem foldl_bestNodeStep_sound (w h : Int) (free : List Rect) :
    ∀ (acc : Option (Int × Rect)) (s : Int) (rect : Rect),
      free.foldl (bestNodeStep w h) acc = some (s, rect) →
      (∃ s0, acc = some (s0, rect)) ∨
      ∃ f ∈ free, w ≤ f.width ∧ h ≤ f.height ∧ rect = ⟨f.x, f.y, w, h⟩ := by
  induction free with
  | nil => intro acc s rect hf; exact .inl ⟨s, hf⟩
  | cons f fs ih =>
    intro acc s rect hf
    simp only [List.foldl_cons] at hf
    rcases ih _ s rect hf with ⟨s0, hacc⟩ | ⟨g, hg, h1, h2, h3⟩
    · rcases bestNodeStep_cases w h acc f with hstep | ⟨h1, h2, s1, hstep⟩
      · rw [hstep] at hacc
        exact .inl ⟨s0, hacc⟩
      · rw [hstep] at hacc
        injection hacc with hacc
        injection hacc with _ hrect
        exact .inr ⟨f, by simp, h1, h2, hrect.symm⟩
    · exact .inr ⟨g, by simp [hg], h1, h2, h3⟩

theorem findBestNode_sound (free : List Rect) (w h s : Int) (rect : Rect)
    (hf : findBestNode free w h = some (s, rect)) :
    ∃ f ∈ free, w ≤ f.width ∧ h ≤ f.height ∧ rect = ⟨f.x, f.y, w, h⟩ := by
  rcases foldl_bestNodeStep_sound w h free none s rect hf with ⟨s0, hacc⟩ | hw
  · exact absurd hacc (by simp)
  · exact hw

theorem splitFreeNode_none_not_overlap (f u : Rect)
    (h : splitFreeNode f u = none) : ¬ rOverlap f u := by
  unfold splitFreeNode at h
  by_cases hc : (u.x ≥ f.x + f.width ∨ u.x + u.width ≤ f.x ∨
      u.y ≥ f.y + f.height ∨ u.y + u.height ≤ f.y)
  · unfold rOverlap
    omega
  · rw [if_neg hc] at h
    simp at h

theorem mem_ite_singleton {c : Prop} [Decidable c] {a s : Rect} :
    (s ∈ (if c then [a] else ([] : List Rect))) ↔ (c ∧ s = a) := by
  split <;> simp_all

theorem splitFreeNode_strips (f u s : Rect) (L : List Rect)
    (h : splitFreeNode f u = some L) (hs : s ∈ L) :
    ¬ rOverlap s u ∧ subRect s f := by
  unfold splitFreeNode at h
  by_cases hc : (u.x ≥ f.x + f.width ∨ u.x + u.width ≤ f.x ∨
      u.y ≥ f.y + f.height ∨ u.y + u.height ≤ f.y)
  · rw [if_pos hc] at h
    exact absurd h (by simp)
  · rw [if_neg hc] at h
    push_neg at hc
    obtain ⟨hc1, hc2, hc3, hc4⟩ := hc
    injection h with h
    subst h
    have hH : u.x < f.x + f.width ∧ u.x + u.width > f.x := by omega
    have hV : u.y < f.y + f.height ∧ u.y + u.height > f.y := by omega
    rw [if_pos hH, if_pos hV] at hs
    simp only [List.mem_append, mem_ite_singleton] at hs
    unfold rOverlap subRect
    rcases hs with ((⟨hcond, hseq⟩ | ⟨hcond, hseq⟩) | (⟨hcond, hseq⟩ | ⟨hcond, hseq⟩)) <;>
      (subst hseq; simp only; constructor) <;> omega

theorem pruneInner_subset (x : Rect) (ys : List Rect) :
    ∀ z ∈ (pruneInner x ys).1, z ∈ ys := by
  induction ys with
  | nil => simp [pruneInner]
  | cons y ys ih =>
    intro z hz
    unfold pruneInner at hz
    by_cases h1 : isContained x y
    · rw [if_pos h1] at hz
      exact hz
    · rw [if_neg h1] at hz
      by_cases h2 : isContained y x
      · rw [if_pos h2] at hz
        exact List.mem_cons_of_mem y (ih z hz)
      · rw [if_neg h2] at hz
        simp only [List.mem_cons] at hz ⊢
        rcases hz with hz | hz
        · exact .inl hz
        · exact .inr (ih z hz)

theorem pruneAux_subset : ∀ (fuel : Nat) (l : List Rect),
    ∀ z ∈ pruneAux fuel l, z ∈ l := by
  intro fuel
  induction fuel with
  | zero =>
    intro l z hz
    cases l with
    | nil => simp [pruneAux] at hz
    | cons a as => simpa [pruneAux] using hz
  | succ n ih =>
    intro l z hz
    cases l with
    | nil => simp [pruneAux] at hz
    | cons x ys =>
      rw [pruneAux] at hz
      cases hp : pruneInner x ys with
      | mk t keep =>
        rw [hp] at hz
        cases keep with
        | true =>
          simp only [List.mem_cons] at hz ⊢
          rcases hz with hz | hz
          · exact .inl hz
          · have := ih t z hz
            exact .inr (pruneInner_subset x ys z (by rw [hp]; exact this))
        | false =>
          have := ih t z hz
          exact List.mem_cons_of_mem x (pruneInner_subset x ys z (by rw [hp]; exact this))

theorem placeRect_mem (u : Rect) (free : List Rect) (g : Rect)
    (hg : g ∈ placeRect u free) :
    ¬ rOverlap g u ∧ ∃ f ∈ free, subRect g f := by
  unfold placeRect pruneFreeList at hg
  have hg' := pruneAux_subset _ _ g hg
  rcases List.mem_append.mp hg' with hk | hstrip
  · rw [List.mem_filter] at hk
    obtain ⟨hmem, hnone⟩ := hk
    have hnone' : splitFreeNode g u = none := by
      cases hrec : splitFreeNode g u with
      | none => rfl
      | some L => rw [hrec] at hnone; simp at hnone
    exact ⟨splitFreeNode_none_not_overlap g u hnone', g, hmem, subRect_refl g⟩
  · rw [List.mem_flatten] at hstrip
    obtain ⟨L, hL, hgL⟩ := hstrip
    rw [List.mem_filterMap] at hL
    obtain ⟨f, hf, hsplit⟩ := hL
    have hspec := splitFreeNode_strips f u g L hsplit hgL
    exact ⟨hspec.1, f, hf, hspec.2⟩

theorem insert_some_full (padding : Int) (free : List Rect)
    (task : OptimizationTask) (r : PackedRect) (free' : List Rect)
    (h : insert padding free task = some (r, free')) :
    ∃ f ∈ free,
      task.targetWidth + padding ≤ f.width ∧
      task.targetHeight + padding ≤ f.height ∧
      r = ⟨f.x, f.y, task.targetWidth, task.targetHeight, task⟩ ∧
      free' = placeRect ⟨f.x, f.y, task.targetWidth + padding,
        task.targetHeight + padding⟩ free := by
  simp only [insert] at h
  cases hf : findBestNode free (task.targetWidth + padding)
      (task.targetHeight + padding) with
  | none => rw [hf] at h; simp at h
  | some best =>
      obtain ⟨score, bestRect⟩ := best
      rw [hf] at h
      simp only [Option.some.injEq, Prod.mk.injEq] at h
      obtain ⟨hr, hfree⟩ := h
      obtain ⟨f, hmem, h1, h2, h3⟩ :=
        findBestNode_sound free _ _ score bestRect hf
      refine ⟨f, hmem, h1, h2, ?_, ?_⟩
      · rw [← hr, h3]
      · rw [← hfree, h3]

/-- Invariant of the page filling state: every free rectangle is interior
disjoint from every placed padded rectangle, and the placed padded rectangles
are pairwise interior disjoint. -/
def pageInv (padding : Int)
    (st : List Rect × List PackedRect × List OptimizationTask) : Prop :=
  (∀ f ∈ st.1, ∀ r ∈ st.2.1, ¬ rOverlap f (padRect padding r)) ∧
  List.Pairwise
    (fun r1 r2 => ¬ rOverlap (padRect padding r1) (padRect padding r2)) st.2.1

theorem fillStep_inv (maxSize padding : Int)
    (st : List Rect × List PackedRect × List OptimizationTask)
    (task : OptimizationTask) (h : pageInv padding st) :
    pageInv padding (fillStep maxSize padding st task) := by
  unfold fillStep
  by_cases hskip : (task.targetWidth > maxSize ∨ task.targetHeight > maxSize)
  · rw [if_pos hskip]; exact h
  · rw [if_neg hskip]
    cases hi : insert padding st.1 task with
    | none => exact h
    | some pr =>
      obtain ⟨r, free'⟩ := pr
      obtain ⟨f, hfmem, hw, hh, hr, hfree⟩ :=
        insert_some_full padding st.1 task r free' hi
      have hpad : padRect padding r =
          ⟨f.x, f.y, task.targetWidth + padding, task.targetHeight + padding⟩ := by
        rw [hr]; rfl
      have hsubf : subRect (padRect padding r) f := by
        rw [hpad]
        unfold subRect
        simp only
        omega
      constructor
      · intro g hgmem r' hr'mem
        simp only at hgmem hr'mem
        rw [hfree] at hgmem
        obtain ⟨hgnotU, f0, hf0mem, hgsub⟩ :=
          placeRect_mem _ st.1 g hgmem
        rcases List.mem_append.mp hr'mem with hold | hnew
        · intro hov
          exact h.1 f0 hf0mem r' hold
            (subRect_overlap_mono hgsub hov)
        · rw [List.mem_singleton] at hnew
          rw [hnew, hpad]
          exact hgnotU
      · simp only
        rw [List.pairwise_append]
        refine ⟨h.2, List.pairwise_singleton _ _, ?_⟩
        intro a ha b hb
        rw [List.mem_singleton] at hb
        rw [hb]
        intro hov
        have hov' : rOverlap (padRect padding r) (padRect padding a) :=
          rOverlap_comm hov
        have : rOverlap f (padRect padding a) :=
          subRect_overlap_mono hsubf hov'
        exact h.1 f hfmem a ha this

theorem foldl_fillStep_inv (maxSize padding : Int)
    (tasks : List OptimizationTask) :
    ∀ st, pageInv padding st →
      pageInv padding (tasks.foldl (fillStep maxSize padding) st) := by
  induction tasks with
  | nil => intro st h; exact h
  | cons t ts ih =>
    intro st h
    simp only [List.foldl_cons]
    exact ih _ (fillStep_inv maxSize padding st t h)

theorem fillPage_pairwise_disjoint (maxSize padding : Int)
    (tasks : List OptimizationTask) :
    List.Pairwise
      (fun r1 r2 => ¬ rOverlap (padRect padding r1) (padRect padding r2))
      (fillPage maxSize padding tasks).1 := by
  unfold fillPage
  have h := foldl_fillStep_inv maxSize padding tasks
    ([⟨0, 0, maxSize, maxSize⟩], [], [])
    (by constructor <;> simp [pageInv])
  exact h.2

/-- C5: for every task list, page size and padding at least 0, any two
PackedRects emitted on the same atlas page are interior disjoint after each is
inflated by the padding on its right and bottom edges.  The inflated rectangle
is exactly the node the packer consumed out of the free list, every consumed
node lies inside a free rectangle, and the free rectangles stay disjoint from
every consumed node. -/
theorem C5_padded_rects_disjoint (tasks : List OptimizationTask)
    (maxSize padding : Int) (_hpad : 0 ≤ padding) :
    ∀ page ∈ packAtlases tasks maxSize padding,
      page.items.Pairwise
        (fun r1 r2 => ¬ rOverlap (padRect padding r1) (padRect padding r2)) := by
  intro page hpage
  obtain ⟨rem, hitems⟩ := packLoop_items maxSize padding _ _ _ page hpage
  rw [hitems]
  exact fillPage_pairwise_disjoint maxSize padding rem

/-- Witness for C5: with padding 0 the two 1024 by 1024 tasks share one 2048
page and their padded rectangles are disjoint. -/
theorem C5_witness :
    ((packAtlases [taskA1024, taskB1024] 2048 0).head!).items.Pairwise
      (fun r1 r2 => ¬ rOverlap (padRect 0 r1) (padRect 0 r2)) := by
  have hlen : (packAtlases [taskA1024, taskB1024] 2048 0).length = 1 := by decide
  have hne : packAtlases [taskA1024, taskB1024] 2048 0 ≠ [] := by
    intro hempty
    rw [hempty] at hlen
    simp at hlen
  exact C5_padded_rects_disjoint [taskA1024, taskB1024] 2048 0 (le_refl 0)
    _ (List.head!_mem_self hne)

end Packer

/-! ## Global asset stats and loaded images (src/types) -/

/-- GlobalAssetStat as built by the aggregation in src/utils/spineParser.ts and
consumed by the planner in src/unnamed/part_001. -/
structure GlobalAssetStat where
  path : String
  lookupKey : String
  originalWidth : Int
  originalHeight : Int
  physicalWidth : Option Int
  physicalHeight : Option Int
  maxRenderWidth : Int
  maxRenderHeight : Int
  maxScaleX : Rat
  maxScaleY : Rat
  sourceAnimation : String
  sourceSkeleton : String
  frameIndex : Int
  isOverridden : Bool
  skinName : String
  overridePercentage : Option Rat
deriving DecidableEq, Repr

/-- One entry of the loadedImages map handed to the planner: decoded display
size, optional physical source size, the backing file and its original path. -/
structure LoadedImage where
  width : Int
  height : Int
  sourceWidth : Option Int
  sourceHeight : Option Int
  file : Blob
  originalPath : String
deriving DecidableEq, Repr

/-! ## String helpers

JavaScript string primitives used by the planner, re-implemented over the
character list so that they evaluate inside the kernel.  String.length and
lastIndexOf count code points here where the host counts UTF-16 units; the
two agree on all inputs the repository manipulates (ASCII paths). -/

def lastIndexAux (c : Char) : List Char → Nat → Int → Int
  | [], _, best => best
  | d :: ds, i, best => lastIndexAux c ds (i + 1) (if d = c then (i : Int) else best)

/-- String.prototype.lastIndexOf for a single character, negative one when
absent. -/
def lastIndexOfChar (s : String) (c : Char) : Int :=
  lastIndexAux c s.toList 0 (-1)

/-- String.prototype.substring(0, n). -/
def strTake (s : String) (n : Int) : String :=
  String.mk (s.toList.take n.toNat)

/-! ## Natural, case insensitive string order

Model of localeCompare(undefined, { numeric: true, sensitivity: base }) as
used for the task ordering: digit runs compare by numeric value, other
characters case insensitively; collation details beyond that contract are
locale defined and no verified property depends on them. -/

def natTokensAux : List Char → Option Nat → List (Nat ⊕ Char)
  | [], some n => [Sum.inl n]
  | [], none => []
  | c :: cs, acc =>
      if c.isDigit then
        natTokensAux cs (some ((acc.getD 0) * 10 + (c.toNat - 48)))
      else
        (match acc with | some n => [Sum.inl n] | none => []) ++
          Sum.inr c.toLower :: natTokensAux cs none

def natTokens (s : String) : List (Nat ⊕ Char) :=
  natTokensAux s.toList none

def tokensLe : List (Nat ⊕ Char) → List (Nat ⊕ Char) → Bool
  | [], _ => true
  | _ :: _, [] => false
  | a :: as, b :: bs =>
    match a, b with
    | Sum.inl m, Sum.inl n =>
        if m < n then true else if n < m then false else tokensLe as bs
    | Sum.inl _, Sum.inr _ => true
    | Sum.inr _, Sum.inl _ => false
    | Sum.inr c, Sum.inr d =>
        if c < d then true else if d < c then false else tokensLe as bs

def naturalLe (a b : String) : Bool :=
  tokensLe (natTokens a) (natTokens b)

/-! ## Optimization planner (calculateOptimizationTargets, src/unnamed/part_001) -/

namespace Planner

/-- The statsMap built at the top of calculateOptimizationTargets. -/
def statsMapOf (stats : List GlobalAssetStat) : List (String × GlobalAssetStat) :=
  stats.foldl (fun m s => mapSet m s.lookupKey s) []

/-- Body of the loadedImages loop of calculateOptimizationTargets for one
image and its merged stat: buffered (or overridden) dimensions, clamped down
to the physical size and up to 1, the resize flag, and the output file name
with the extension rewritten to png. -/
def planTask (bufferPercentage : Rat) (original : LoadedImage)
    (stat : GlobalAssetStat) : OptimizationTask :=
  let physicalW := original.sourceWidth.getD original.width
  let physicalH := original.sourceHeight.getD original.height
  let calculatedW : Int :=
    if stat.isOverridden then stat.maxRenderWidth
    else ⌈(stat.maxRenderWidth : Rat) * (1 + bufferPercentage / 100)⌉
  let calculatedH : Int :=
    if stat.isOverridden then stat.maxRenderHeight
    else ⌈(stat.maxRenderHeight : Rat) * (1 + bufferPercentage / 100)⌉
  let targetW := max 1 (min calculatedW physicalW)
  let targetH := max 1 (min calculatedH physicalH)
  let isResize := decide (targetW ≠ physicalW ∨ targetH ≠ physicalH)
  let sourcePath := original.originalPath
  let lastSlashIndex := max (lastIndexOfChar sourcePath '/')
    (lastIndexOfChar sourcePath '\\')
  let lastDotIndex := lastIndexOfChar sourcePath '.'
  let basePath :=
    if lastDotIndex > lastSlashIndex then strTake sourcePath lastDotIndex
    else sourcePath
  let outputFileName := basePath ++ ".png"
  ⟨outputFileName, original.originalPath, physicalW, physicalH, targetW,
    targetH, original.file, max stat.maxScaleX stat.maxScaleY, isResize,
    stat.overridePercentage⟩

/-- Comparator of the final task sort: resizes first, then natural
alphabetical order on the file name. -/
def taskLe (a b : OptimizationTask) : Bool :=
  if a.isResize ≠ b.isResize then a.isResize
  else naturalLe a.fileName b.fileName

/-- calculateOptimizationTargets from src/unnamed/part_001: walk the loaded
images in map order, emit one task per image holding a merged stat, then sort
resizes first in natural name order. -/
def calculateOptimizationTargets (stats : List GlobalAssetStat)
    (loadedImages : List (String × LoadedImage)) (bufferPercentage : Rat) :
    List OptimizationTask :=
  let statsMap := statsMapOf stats
  let tasks := loadedImages.filterMap
    (fun p => (jsGet statsMap p.1).map (planTask bufferPercentage p.2))
  sortS taskLe tasks

/-- C2 (amended): for every image holding a merged global stat, the planner
emits the task built by planTask, and when the stat carries no user override
the target dimensions are ceil of maxRender times (1 + bufferPct over 100),
clamped down to the physical dimensions and up to a 1 by 1 minimum, with
isResize set exactly when the clamped target differs from the physical size.
When the stat is user overridden the source skips the buffer and uses
maxRender directly, which is the one deviation from the claim as stated. -/
theorem C2_planner_targets (stats : List GlobalAssetStat)
    (loadedImages : List (String × LoadedImage)) (bufferPercentage : Rat)
    (key : String) (img : LoadedImage) (stat : GlobalAssetStat)
    (hmem : (key, img) ∈ loadedImages)
    (hstat : jsGet (statsMapOf stats) key = some stat) :
    planTask bufferPercentage img stat ∈
      calculateOptimizationTargets stats loadedImages bufferPercentage ∧
    (stat.isOverridden = false →
      (planTask bufferPercentage img stat).targetWidth =
        max 1 (min ⌈(stat.maxRenderWidth : Rat) * (1 + bufferPercentage / 100)⌉
          (img.sourceWidth.getD img.width)) ∧
      (planTask bufferPercentage img stat).targetHeight =
        max 1 (min ⌈(stat.maxRenderHeight : Rat) * (1 + bufferPercentage / 100)⌉
          (img.sourceHeight.getD img.height))) ∧
    (stat.isOverridden = true →
      (planTask bufferPercentage img stat).targetWidth =
        max 1 (min stat.maxRenderWidth (img.sourceWidth.getD img.width)) ∧
      (planTask bufferPercentage img stat).targetHeight =
        max 1 (min stat.maxRenderHeight (img.sourceHeight.getD img.height))) ∧
    (planTask bufferPercentage img stat).isResize =
      decide ((planTask bufferPercentage img stat).targetWidth ≠
          img.sourceWidth.getD img.width ∨
        (planTask bufferPercentage img stat).targetHeight ≠
          img.sourceHeight.getD img.height) := by
  refine ⟨?_, ?_, ?_, ?_⟩
  · unfold calculateOptimizationTargets
    rw [mem_sortS, List.mem_filterMap]
    exact ⟨(key, img), hmem, by rw [hstat]; rfl⟩
  · intro hnotov
    unfold planTask
    constructor <;> simp [hnotov]
  · intro hov
    unfold planTask
    constructor <;> simp [hov]
  · unfold planTask
    simp only

/-- Concrete non overridden stat used as the C2 witness input. -/
def statPlain : GlobalAssetStat :=
  ⟨"a", "a", 100, 100, none, none, 10, 10, 1, 1, "idle", "Skel", 0, false,
    "default", none⟩

/-- Concrete user overridden stat exposing the C2 buffer deviation. -/
def statOverridden : GlobalAssetStat :=
  ⟨"a", "a", 100, 100, none, none, 10, 10, 1, 1, "idle", "Skel", 0, true,
    "default", some 10⟩

/-- Concrete 100 by 100 loaded image. -/
def imageA : LoadedImage := ⟨100, 100, none, none, ⟨0⟩, "a.png"⟩

/-- Witness for C2: one 100 by 100 image whose stat demands 10 by 10, with a
100 percent buffer, is planned at 20 by 20 with the resize flag set. -/
theorem C2_witness :
    planTask 100 imageA statPlain ∈
      calculateOptimizationTargets [statPlain] [("a", imageA)] 100 ∧
    (statPlain.isOverridden = false →
      (planTask 100 imageA statPlain).targetWidth =
        max 1 (min ⌈(statPlain.maxRenderWidth : Rat) * (1 + (100 : Rat) / 100)⌉
          (imageA.sourceWidth.getD imageA.width)) ∧
      (planTask 100 imageA statPlain).targetHeight =
        max 1 (min ⌈(statPlain.maxRenderHeight : Rat) * (1 + (100 : Rat) / 100)⌉
          (imageA.sourceHeight.getD imageA.height))) ∧
    (statPlain.isOverridden = true →
      (planTask 100 imageA statPlain).targetWidth =
        max 1 (min statPlain.maxRenderWidth
          (imageA.sourceWidth.getD imageA.width)) ∧
      (planTask 100 imageA statPlain).targetHeight =
        max 1 (min statPlain.maxRenderHeight
          (imageA.sourceHeight.getD imageA.height))) ∧
    (planTask 100 imageA statPlain).isResize =
      decide ((planTask 100 imageA statPlain).targetWidth ≠
          imageA.sourceWidth.getD imageA.width ∨
        (planTask 100 imageA statPlain).targetHeight ≠
          imageA.sourceHeight.getD imageA.height) :=
  C2_planner_targets [statPlain] [("a", imageA)] 100 "a" imageA statPlain
    (by decide) (by decide)

/-- C2 counterexample: for the user overridden stat demanding 10 by 10 on a
100 by 100 image with a 100 percent buffer, the planner emits target width 10
(the override value, unbuffered), while the claimed formula gives
ceil(10 times 2) = 20 clamped to [1, 100], that is 20. -/
theorem C2_counterexample :
    (calculateOptimizationTargets [statOverridden] [("a", imageA)] 100).map
        (fun t => t.targetWidth) = [10] ∧
    max 1 (min ⌈(statOverridden.maxRenderWidth : Rat) * (1 + (100 : Rat) / 100)⌉
        (imageA.sourceWidth.getD imageA.width)) = 20 := by
  constructor
  · decide
  · have h : (statOverridden.maxRenderWidth : Rat) * (1 + (100 : Rat) / 100) =
        ((20 : Int) : Rat) := by norm_num [statOverridden]
    rw [h, Int.ceil_intCast]
    decide

end Planner

/-! ## Optimized zip generation (generateOptimizedZip, src/unnamed/part_001) -/

namespace Zip

/-- generateOptimizedZip from src/unnamed/part_001, with the host resampler
passed as an oracle: resizeImage catches any pipeline failure and resolves to
null, modelled as none.  Each task produces exactly one archive write under
the images_optimized root folder: the resized blob when the task is a resize
and the resampler succeeded, and the untouched source blob otherwise.  The
progress callback performs no archive writes and is omitted. -/
def generateOptimizedZip (tasks : List OptimizationTask)
    (resize : OptimizationTask → Option Blob) : List (String × Blob) :=
  tasks.map (fun task =>
    ("images_optimized/" ++ task.fileName,
     if task.isResize then
       match resize task with
       | some resizedBlob => resizedBlob
       | none => task.blob
     else task.blob))

/-- C8: when the resampler fails on a resize task (returns no blob), the
archive write for that task carries the original source blob unchanged, and
every task in the batch still produces its archive write (one write per task,
in order). -/
theorem C8_resize_failure_falls_back (tasks : List OptimizationTask)
    (resize : OptimizationTask → Option Blob) (i : Nat) (t : OptimizationTask)
    (ht : tasks[i]? = some t) (hres : t.isResize = true)
    (hfail : resize t = none) :
    (generateOptimizedZip tasks resize)[i]? =
      some ("images_optimized/" ++ t.fileName, t.blob) ∧
    (generateOptimizedZip tasks resize).length = tasks.length := by
  unfold generateOptimizedZip
  constructor
  · rw [List.getElem?_map, ht]
    simp [hres, hfail]
  · exact List.length_map _ _

/-- Concrete resize task for the C8 witness. -/
def resizeTask : OptimizationTask :=
  ⟨"a.png", "a.png", 100, 100, 10, 10, ⟨7⟩, 1, true, none⟩

/-- Witness for C8: a one task batch whose resampler always fails writes the
original blob under the output name and still completes the batch. -/
theorem C8_witness :
    (generateOptimizedZip [resizeTask] (fun _ => none))[0]? =
      some ("images_optimized/" ++ resizeTask.fileName, resizeTask.blob) ∧
    (generateOptimizedZip [resizeTask] (fun _ => none)).length = 1 :=
  C8_resize_failure_falls_back [resizeTask] (fun _ => none) 0 resizeTask
    (by decide) (by decide) rfl

end Zip

/-! ## Scale timeline sampling (getAnimationScaleFactor, src/utils/spineParser.ts) -/

namespace Spine

/-- One key of a scale timeline as it arrives from the parsed skeleton JSON:
every field may be absent; getTime defaults to 0, the component getters
default to 1, and only the literal curve value stepped is interpreted. -/
structure ScaleKey where
  time : Option Rat
  x : Option Rat
  y : Option Rat
  curve : Option String
deriving DecidableEq, Repr

def keyTime (k : ScaleKey) : Rat := k.time.getD 0

def keyX (k : ScaleKey) : Rat := k.x.getD 1

def keyY (k : ScaleKey) : Rat := k.y.getD 1

/-- The index walk of getAnimationScaleFactor: advance prev while the next key
time is at most the sample time; at the bracket hold the previous value when
its curve is stepped, otherwise interpolate linearly (percent 0 when the two
key times coincide).  The empty tail arm mirrors the unreachable missing next
guard of the source, which returns the previous key values. -/
def scanScale (t : Rat) : ScaleKey → List ScaleKey → Rat × Rat
  | prev, [] => (keyX prev, keyY prev)
  | prev, next :: rest =>
      if keyTime next ≤ t then scanScale t next rest
      else if prev.curve = some "stepped" then (keyX prev, keyY prev)
      else
        let prevTime := keyTime prev
        let nextTime := keyTime next
        let duration := nextTime - prevTime
        let percent := if duration > 0 then (t - prevTime) / duration else 0
        (keyX prev + (keyX next - keyX prev) * percent,
         keyY prev + (keyY next - keyY prev) * percent)

/-- getAnimationScaleFactor from src/utils/spineParser.ts: identity for an
empty timeline or a sample before the first key, the last key values from the
last key time on, and the bracket walk in between. -/
def getAnimationScaleFactor (timeline : List ScaleKey) (t : Rat) : Rat × Rat :=
  match timeline with
  | [] => (1, 1)
  | k0 :: rest =>
      if t < keyTime k0 then (1, 1)
      else
        let lastKey := (k0 :: rest).getLast?.getD k0
        if keyTime lastKey ≤ t then (keyX lastKey, keyY lastKey)
        else scanScale t k0 rest

theorem gASF_cons (k0 : ScaleKey) (rest : List ScaleKey) (t : Rat) :
    getAnimationScaleFactor (k0 :: rest) t =
      if t < keyTime k0 then (1, 1)
      else
        if keyTime ((k0 :: rest).getLast?.getD k0) ≤ t then
          (keyX ((k0 :: rest).getLast?.getD k0),
           keyY ((k0 :: rest).getLast?.getD k0))
        else scanScale t k0 rest := rfl

theorem scanScale_skip (t : Rat) :
    ∀ (mid : List ScaleKey) (k kPrev : ScaleKey) (rest2 : List ScaleKey),
      (∀ m ∈ mid, keyTime m ≤ t) → keyTime kPrev ≤ t →
      scanScale t k (mid ++ kPrev :: rest2) = scanScale t kPrev rest2 := by
  intro mid
  induction mid with
  | nil =>
    intro k kPrev rest2 _ hprev
    simp only [List.nil_append, scanScale]
    rw [if_pos hprev]
  | cons m ms ih =>
    intro k kPrev rest2 hmid hprev
    simp only [List.cons_append, scanScale]
    rw [if_pos (hmid m (by simp))]
    exact ih m kPrev rest2 (fun x hx => hmid x (by simp [hx])) hprev

theorem scanScale_bracket (t : Rat) (kPrev kNext : ScaleKey)
    (post : List ScaleKey) (h1 : keyTime kPrev ≤ t) (h2 : t < keyTime kNext) :
    scanScale t kPrev (kNext :: post) =
      if kPrev.curve = some "stepped" then (keyX kPrev, keyY kPrev)
      else
        (keyX kPrev + (keyX kNext - keyX kPrev) *
          ((t - keyTime kPrev) / (keyTime kNext - keyTime kPrev)),
         keyY kPrev + (keyY kNext - keyY kPrev) *
          ((t - keyTime kPrev) / (keyTime kNext - keyTime kPrev))) := by
  simp only [scanScale]
  rw [if_neg (not_le.mpr h2)]
  by_cases hc : kPrev.curve = some "stepped"
  · rw [if_pos hc, if_pos hc]
  · rw [if_neg hc, if_neg hc]
    have hdur : keyTime kNext - keyTime kPrev > 0 := by linarith
    rw [if_pos hdur]

theorem getLast?_time_ge (kNext : ScaleKey) (post : List ScaleKey)
    (hsort : (kNext :: post).Pairwise (fun a b => keyTime a < keyTime b)) :
    ∃ l, (kNext :: post).getLast? = some l ∧ keyTime kNext ≤ keyTime l := by
  obtain ⟨l, hl⟩ := Option.isSome_iff_exists.mp
    (List.getLast?_isSome.mpr (by simp : (kNext :: post) ≠ []))
  refine ⟨l, hl, ?_⟩
  have hmem : l ∈ kNext :: post :=
    List.mem_of_mem_getLast? (by rw [hl]; rfl)
  rcases List.mem_cons.mp hmem with h | h
  · rw [h]
  · exact le_of_lt (List.rel_of_pairwise_cons hsort h)

/-- Sampled timeline of specification scenario S4: a stepped key of value 1 at
time 0 followed by a key of value 4 at time 1. -/
def steppedTimeline : List ScaleKey :=
  [⟨some 0, some 1, none, some "stepped"⟩, ⟨some 1, some 4, none, none⟩]

/-- C7: for every scale timeline with strictly increasing key times and every
sample time lying in [kPrev, kNext) for two successive keys, the instantaneous
scale is the linear interpolation of the two key values, except that a
stepped curve on the earlier key holds its value; in particular, for keys
(t=0, x=1, stepped) and (t=1, x=4), sampling at t=0.5 yields x scale 1 and
sampling at t=1 yields x scale 4. -/
theorem C7_stepped_and_linear_interpolation :
    (∀ (pre : List ScaleKey) (kPrev kNext : ScaleKey) (post : List ScaleKey)
      (t : Rat),
      (pre ++ kPrev :: kNext :: post).Pairwise
        (fun a b => keyTime a < keyTime b) →
      keyTime kPrev ≤ t → t < keyTime kNext →
      getAnimationScaleFactor (pre ++ kPrev :: kNext :: post) t =
        (if kPrev.curve = some "stepped" then (keyX kPrev, keyY kPrev)
         else
           (keyX kPrev + (keyX kNext - keyX kPrev) *
             ((t - keyTime kPrev) / (keyTime kNext - keyTime kPrev)),
            keyY kPrev + (keyY kNext - keyY kPrev) *
             ((t - keyTime kPrev) / (keyTime kNext - keyTime kPrev))))) ∧
    (getAnimationScaleFactor steppedTimeline (1 / 2)).1 = 1 ∧
    (getAnimationScaleFactor steppedTimeline 1).1 = 4 := by
  refine ⟨?_, ?_, ?_⟩
  · intro pre kPrev kNext post t hsort h1 h2
    cases pre with
    | nil =>
      simp only [List.nil_append] at hsort ⊢
      obtain ⟨l, hl, hlge⟩ := getLast?_time_ge kNext post (hsort.sublist (by simp))
      rw [gASF_cons, if_neg (not_lt.mpr h1)]
      have hlast : (kPrev :: kNext :: post).getLast?.getD kPrev = l := by
        rw [List.getLast?_cons_cons, hl]
        rfl
      rw [hlast, if_neg (not_le.mpr (lt_of_lt_of_le h2 hlge))]
      exact scanScale_bracket t kPrev kNext post h1 h2
    | cons p ps =>
      have hsort' := hsort
      rw [List.cons_append, List.pairwise_cons] at hsort'
      obtain ⟨hp, htail⟩ := hsort'
      have hpk : keyTime p < keyTime kPrev := hp kPrev (by simp)
      obtain ⟨hps, hrest, hcross⟩ := List.pairwise_append.mp htail
      obtain ⟨l, hl, hlge⟩ :=
        getLast?_time_ge kNext post (hrest.sublist (by simp))
      have hmids : ∀ m ∈ ps, keyTime m ≤ t :=
        fun m hm => le_trans (le_of_lt (hcross m hm kPrev (by simp))) h1
      simp only [List.cons_append]
      rw [gASF_cons, if_neg (not_lt.mpr (le_trans (le_of_lt hpk) h1))]
      have hlast : (p :: (ps ++ kPrev :: kNext :: post)).getLast?.getD p = l := by
        have h2ne : (kPrev :: kNext :: post) ≠ [] := by simp
        rw [show p :: (ps ++ kPrev :: kNext :: post) =
              (p :: ps) ++ kPrev :: kNext :: post from rfl,
            List.getLast?_append, List.getLast?_cons_cons, hl]
        rfl
      rw [hlast, if_neg (not_le.mpr (lt_of_lt_of_le h2 hlge))]
      rw [scanScale_skip t ps p kPrev (kNext :: post) hmids h1]
      exact scanScale_bracket t kPrev kNext post h1 h2
  · norm_num [steppedTimeline, gASF_cons, scanScale, keyTime, keyX, keyY]
  · norm_num [steppedTimeline, gASF_cons, scanScale, keyTime, keyX, keyY]

/-- Witness for C7 applying the bracket statement at scenario S4: sampling the
stepped timeline at one half lands in the bracket of its two keys and holds
the earlier value (1, 1). -/
theorem C7_witness :
    getAnimationScaleFactor
        ([] ++ (⟨some 0, some 1, none, some "stepped"⟩ : ScaleKey) ::
          (⟨some 1, some 4, none, none⟩ : ScaleKey) :: []) (1 / 2) =
      (if (⟨some 0, some 1, none, some "stepped"⟩ : ScaleKey).curve =
          some "stepped" then
        (keyX ⟨some 0, some 1, none, some "stepped"⟩,
         keyY ⟨some 0, some 1, none, some "stepped"⟩)
       else
        (keyX ⟨some 0, some 1, none, some "stepped"⟩ +
          (keyX ⟨some 1, some 4, none, none⟩ -
           keyX ⟨some 0, some 1, none, some "stepped"⟩) *
          ((1 / 2 - keyTime ⟨some 0, some 1, none, some "stepped"⟩) /
           (keyTime ⟨some 1, some 4, none, none⟩ -
            keyTime ⟨some 0, some 1, none, some "stepped"⟩)),
         keyY ⟨some 0, some 1, none, some "stepped"⟩ +
          (keyY ⟨some 1, some 4, none, none⟩ -
           keyY ⟨some 0, some 1, none, some "stepped"⟩) *
          ((1 / 2 - keyTime ⟨some 0, some 1, none, some "stepped"⟩) /
           (keyTime ⟨some 1, some 4, none, none⟩ -
            keyTime ⟨some 0, some 1, none, some "stepped"⟩)))) :=
  C7_stepped_and_linear_interpolation.1 []
    ⟨some 0, some 1, none, some "stepped"⟩ ⟨some 1, some 4, none, none⟩ [] (1 / 2)
    (by norm_num [keyTime]) (by norm_num [keyTime]) (by norm_num [keyTime])

/-- C9: for every non empty scale timeline and every sample time strictly
before the first key time, getAnimationScaleFactor returns the identity
(1, 1), not the first key values. -/
theorem C9_before_first_key_identity (k0 : ScaleKey) (rest : List ScaleKey)
    (t : Rat) (h : t < keyTime k0) :
    getAnimationScaleFactor (k0 :: rest) t = (1, 1) := by
  rw [gASF_cons, if_pos h]

/-- Witness for C9: sampling the stepped timeline of S4 at time minus one,
before its first key at time 0, yields the identity even though the first key
value is well defined. -/
theorem C9_witness :
    getAnimationScaleFactor steppedTimeline (-1) = (1, 1) :=
  C9_before_first_key_identity ⟨some 0, some 1, none, some "stepped"⟩
    [⟨some 1, some 4, none, none⟩] (-1) (by norm_num [keyTime])

/-! ## Asset lookup (findImage, src/utils/spineParser.ts)

The JavaScript string primitives are re-implemented over the character list so
they evaluate in the kernel.  Char.toLower lowercases ASCII as the host does;
lengths count code points where the host counts UTF-16 units; both agree on
the ASCII paths the repository manipulates. -/

def trimChars (cs : List Char) : List Char :=
  ((cs.dropWhile Char.isWhitespace).reverse.dropWhile Char.isWhitespace).reverse

/-- The key normalisation of findImage: trim, backslashes to forward slashes,
lowercase (replacement and lowercasing commute, so one pass suffices). -/
def normalizePath (p : String) : String :=
  String.mk ((trimChars p.toList).map
    (fun c => if c = '\\' then '/' else c.toLower))

/-- String.prototype.indexOf(".") at least zero. -/
def hasDot (s : String) : Bool := s.toList.contains '.'

/-- String.prototype.endsWith. -/
def endsWithS (s suffixStr : String) : Bool :=
  suffixStr.toList.isSuffixOf s.toList

/-- String.prototype.length (code points, see above). -/
def strLen (s : String) : Nat := s.toList.length

/-- The extension list tried by findImage, in source order. -/
def imageExtensions : List String := [".png", ".jpg", ".jpeg", ".webp"]

/-- Step 2 of findImage: the first extension whose appended key is present. -/
def extAppendLookup {δ : Type} (availableFiles : List (String × δ))
    (np : String) : Option (String × δ) :=
  imageExtensions.findSome? (fun ext =>
    (jsGet availableFiles (np ++ ext)).map (fun d => (np ++ ext, d)))

/-- The suffix list of step 3 of findImage: the slash guarded path itself,
plus its extension appended variants when the path has no dot. -/
def searchSuffixesOf (np : String) : List String :=
  ("/" ++ np) ::
    (if hasDot np then []
     else imageExtensions.map (fun ext => "/" ++ np ++ ext))

/-- True when the candidate improves on the current best match: anything beats
the Number.MAX_VALUE start, otherwise strictly shorter wins. -/
def betterLen (best : Option String) (k : String) : Bool :=
  match best with
  | none => true
  | some b => decide (strLen k < strLen b)

/-- The best match scan of step 3 of findImage over the file keys in map
order.  The source tests each suffix in an inner loop; after the first
matching suffix updates the best length to this key, the remaining suffixes
of the same key can no longer be strictly shorter, so the inner loop is
equivalent to this single guarded update. -/
def suffixFold {δ : Type} (availableFiles : List (String × δ))
    (sfxs : List String) : Option String :=
  availableFiles.foldl
    (fun best p =>
      if (sfxs.any (fun sfx => endsWithS p.1 sfx)) && betterLen best p.1 then
        some p.1
      else best)
    none

/-- All file keys matching some search suffix, in map order; step 3 of
findImage returns the first shortest element of this list. -/
def suffixMatches {δ : Type} (availableFiles : List (String × δ))
    (np : String) : List String :=
  (availableFiles.map Prod.fst).filter
    (fun k => (searchSuffixesOf np).any (fun sfx => endsWithS k sfx))

/-- findImage from src/utils/spineParser.ts: exact normalized match, then
extension appended exact match (only when the path has no dot), then shortest
suffix match. -/
def findImage {δ : Type} (availableFiles : List (String × δ)) (path : String) :
    Option (String × δ) :=
  let normalizedPath := normalizePath path
  match jsGet availableFiles normalizedPath with
  | some data => some (normalizedPath, data)
  | none =>
    let hasExtension := hasDot normalizedPath
    let step2 : Option (String × δ) :=
      if hasExtension then none
      else extAppendLookup availableFiles normalizedPath
    match step2 with
    | some r => some r
    | none =>
      match suffixFold availableFiles (searchSuffixesOf normalizedPath) with
      | some bestMatchKey =>
          (jsGet availableFiles bestMatchKey).map (fun d => (bestMatchKey, d))
      | none => none

theorem jsGet_of_mem_keys {δ : Type} (files : List (String × δ)) (k : String)
    (h : k ∈ files.map Prod.fst) : ∃ d, jsGet files k = some d := by
  induction files with
  | nil => simp at h
  | cons p rest ih =>
    obtain ⟨pk, pv⟩ := p
    by_cases hk : pk = k
    · exact ⟨pv, by simp [jsGet_cons, hk]⟩
    · simp only [List.map_cons, List.mem_cons] at h
      rcases h with h | h
      · exact absurd h.symm hk
      · obtain ⟨d, hd⟩ := ih h
        exact ⟨d, by simp [jsGet_cons, hk, hd]⟩

theorem suffixFold_aux {δ : Type} (sfxs : List String) :
    ∀ (files : List (String × δ)) (acc : Option String) (k : String),
      List.foldl
        (fun best p =>
          if (sfxs.any (fun sfx => endsWithS p.1 sfx)) && betterLen best p.1
          then some p.1 else best) acc files = some k →
      (acc = some k ∨
        (k ∈ files.map Prod.fst ∧
          sfxs.any (fun sfx => endsWithS k sfx) = true)) ∧
      (∀ p ∈ files, sfxs.any (fun sfx => endsWithS p.1 sfx) = true →
        strLen k ≤ strLen p.1) ∧
      (∀ b, acc = some b → strLen k ≤ strLen b) := by
  intro files
  induction files with
  | nil =>
    intro acc k h
    simp only [List.foldl_nil] at h
    refine ⟨.inl h, by simp, ?_⟩
    intro b hb
    rw [h] at hb
    injection hb with hb
    rw [hb]
  | cons p ps ih =>
    intro acc k h
    simp only [List.foldl_cons] at h
    by_cases hcond :
        ((sfxs.any (fun sfx => endsWithS p.1 sfx)) && betterLen acc p.1) = true
    · rw [if_pos hcond] at h
      obtain ⟨hmatch, hbetter⟩ := Bool.and_eq_true_iff.mp hcond
      obtain ⟨horig, hmin, hacc⟩ := ih (some p.1) k h
      have hkp : strLen k ≤ strLen p.1 := hacc p.1 rfl
      refine ⟨?_, ?_, ?_⟩
      · rcases horig with horig | horig
        · injection horig with horig
          exact .inr ⟨by rw [← horig]; simp, by rw [← horig]; exact hmatch⟩
        · exact .inr ⟨by simp [horig.1], horig.2⟩
      · intro q hq hqm
        rcases List.mem_cons.mp hq with hq | hq
        · rw [hq]; exact hkp
        · exact hmin q hq hqm
      · intro b hb
        cases hab : acc with
        | none => rw [hab] at hb; exact absurd hb (by simp)
        | some b0 =>
            rw [hab] at hb
            injection hb with hb
            subst hb
            unfold betterLen at hbetter
            rw [hab] at hbetter
            have := of_decide_eq_true hbetter
            omega
    · rw [if_neg hcond] at h
      obtain ⟨horig, hmin, hacc⟩ := ih acc k h
      refine ⟨?_, ?_, hacc⟩
      · rcases horig with horig | horig
        · exact .inl horig
        · exact .inr ⟨by simp [horig.1], horig.2⟩
      · intro q hq hqm
        rcases List.mem_cons.mp hq with hq | hq
        · rw [hq] at hqm ⊢
          have hnb : betterLen acc p.1 = false := by
            cases hbl : betterLen acc p.1 with
            | false => rfl
            | true => exact absurd (by simp [hqm, hbl]) hcond
          cases hab : acc with
          | none => rw [hab] at hnb; simp [betterLen] at hnb
          | some b0 =>
              rw [hab] at hnb
              simp only [betterLen] at hnb
              have hge : strLen b0 ≤ strLen p.1 := by
                have := of_decide_eq_false hnb
                omega
              exact le_trans (hacc b0 hab) hge
        · exact hmin q hq hqm

theorem suffixFold_spec {δ : Type} (files : List (String × δ))
    (sfxs : List String) (k : String)
    (h : suffixFold files sfxs = some k) :
    k ∈ files.map Prod.fst ∧
    sfxs.any (fun sfx => endsWithS k sfx) = true ∧
    ∀ p ∈ files, sfxs.any (fun sfx => endsWithS p.1 sfx) = true →
      strLen k ≤ strLen p.1 := by
  obtain ⟨horig, hmin, _⟩ := suffixFold_aux sfxs files none k h
  rcases horig with horig | horig
  · exact absurd horig (by simp)
  · exact ⟨horig.1, horig.2, hmin⟩

theorem suffixFold_none_aux {δ : Type} (sfxs : List String) :
    ∀ (files : List (String × δ)) (acc : Option String),
      List.foldl
        (fun best p =>
          if (sfxs.any (fun sfx => endsWithS p.1 sfx)) && betterLen best p.1
          then some p.1 else best) acc files = none →
      acc = none ∧
        ∀ q ∈ files, (sfxs.any (fun sfx => endsWithS q.1 sfx)) = false := by
  intro files
  induction files with
  | nil => intro acc h; exact ⟨h, by simp⟩
  | cons q qs ih =>
    intro acc h
    simp only [List.foldl_cons] at h
    by_cases hcond :
        ((sfxs.any (fun sfx => endsWithS q.1 sfx)) && betterLen acc q.1) = true
    · rw [if_pos hcond] at h
      exact absurd (ih (some q.1) h).1 (by simp)
    · rw [if_neg hcond] at h
      obtain ⟨hacc, hrest⟩ := ih acc h
      subst hacc
      refine ⟨rfl, ?_⟩
      intro r hr
      rcases List.mem_cons.mp hr with hr | hr
      · rw [hr]
        cases hany : (sfxs.any (fun sfx => endsWithS q.1 sfx)) with
        | false => rfl
        | true => exact absurd (by simp [hany, betterLen]) hcond
      · exact hrest r hr

theorem suffixFold_none {δ : Type} (files : List (String × δ)) (np : String)
    (hmatches : suffixMatches files np ≠ []) :
    suffixFold files (searchSuffixesOf np) ≠ none := by
  intro hnone
  apply hmatches
  rw [suffixMatches, List.filter_eq_nil_iff]
  intro k hk hany
  obtain ⟨p, hp, hpk⟩ := List.mem_map.mp hk
  have hfalse :=
    (suffixFold_none_aux (searchSuffixesOf np) files none hnone).2 p hp
  rw [hpk] at hfalse
  rw [hfalse] at hany
  exact absurd hany (by simp)

/-- C6 (amended): findImage resolves in strict precedence, with steps (2) and
the extension appended suffixes of step (3) applying only when the normalized
requested path contains no dot: (1) exact match on the normalized key; (2)
when the path has no dot, exact match after appending .png, .jpg, .jpeg,
.webp in that order; (3) among all index keys ending with a slash followed by
the requested path (or, when the path has no dot, an extension appended
variant), a shortest matching key; no result only when every applicable step
fails. -/
theorem findImage_eq {δ : Type} (files : List (String × δ)) (path : String) :
    findImage files path =
      match jsGet files (normalizePath path) with
      | some data => some (normalizePath path, data)
      | none =>
        match (if hasDot (normalizePath path) then none
               else extAppendLookup files (normalizePath path)) with
        | some r => some r
        | none =>
          match suffixFold files (searchSuffixesOf (normalizePath path)) with
          | some bestMatchKey =>
              (jsGet files bestMatchKey).map (fun d => (bestMatchKey, d))
          | none => none := rfl

theorem C6_find_image_precedence {δ : Type} (files : List (String × δ))
    (path : String) :
    (∀ d, jsGet files (normalizePath path) = some d →
      findImage files path = some (normalizePath path, d)) ∧
    (jsGet files (normalizePath path) = none →
      hasDot (normalizePath path) = false →
      ∀ r, extAppendLookup files (normalizePath path) = some r →
        findImage files path = some r) ∧
    (jsGet files (normalizePath path) = none →
      (if hasDot (normalizePath path) then none
       else extAppendLookup files (normalizePath path)) = none →
      suffixMatches files (normalizePath path) ≠ [] →
      ∃ k d, findImage files path = some (k, d) ∧ jsGet files k = some d ∧
        k ∈ suffixMatches files (normalizePath path) ∧
        ∀ m ∈ suffixMatches files (normalizePath path), strLen k ≤ strLen m) ∧
    (jsGet files (normalizePath path) = none →
      (if hasDot (normalizePath path) then none
       else extAppendLookup files (normalizePath path)) = none →
      suffixMatches files (normalizePath path) = [] →
      findImage files path = none) := by
  refine ⟨?_, ?_, ?_, ?_⟩
  · intro d hd
    rw [findImage_eq, hd]
  · intro h1 h2 r hr
    rw [findImage_eq, h1, h2, hr]
    rfl
  · intro h1 h2 h3
    rw [findImage_eq, h1, h2]
    cases hfold : suffixFold files (searchSuffixesOf (normalizePath path)) with
    | none =>
        exact absurd hfold (suffixFold_none files (normalizePath path) h3)
    | some k =>
        obtain ⟨hkeys, hany, hmin⟩ := suffixFold_spec files _ k hfold
        obtain ⟨d, hd⟩ := jsGet_of_mem_keys files k hkeys
        refine ⟨k, d, by dsimp only; rw [hd]; rfl, hd, ?_, ?_⟩
        · rw [suffixMatches, List.mem_filter]
          exact ⟨hkeys, hany⟩
        · intro m hm
          rw [suffixMatches, List.mem_filter] at hm
          obtain ⟨hmk, hmany⟩ := hm
          obtain ⟨p, hp, hpk⟩ := List.mem_map.mp hmk
          rw [← hpk]
          exact hmin p hp (by rw [hpk]; exact hmany)
  · intro h1 h2 h3
    rw [findImage_eq, h1, h2]
    cases hfold : suffixFold files (searchSuffixesOf (normalizePath path)) with
    | none => rfl
    | some k =>
        obtain ⟨hkeys, hany, _⟩ := suffixFold_spec files _ k hfold
        have hkmem : k ∈ suffixMatches files (normalizePath path) := by
          rw [suffixMatches, List.mem_filter]
          exact ⟨hkeys, hany⟩
        rw [h3] at hkmem
        exact absurd hkmem (by simp)

/-- Index used by the C6 witness and counterexample. -/
def filesWithSword : List (String × Nat) :=
  [("images/sword.png", 0), ("images/unused/backup/sword.png", 1)]

/-- Witness for C6 at the suffix step: requesting sword against an index
holding images/sword.png and images/unused/backup/sword.png resolves to the
shorter images/sword.png. -/
theorem C6_witness :
    ∃ k d, findImage filesWithSword "sword" = some (k, d) ∧
      jsGet filesWithSword k = some d ∧
      k ∈ suffixMatches filesWithSword (normalizePath "sword") ∧
      ∀ m ∈ suffixMatches filesWithSword (normalizePath "sword"),
        strLen k ≤ strLen m :=
  (C6_find_image_precedence filesWithSword "sword").2.2.1
    (by decide) (by decide) (by decide)

/-- C6 counterexample: the claim omits the no dot guard of step (2).  For the
index holding exactly a.b.png, requesting a.b should resolve through step (2)
by appending .png, but the source skips step (2) because the request contains
a dot, and the suffix step fails as well (a.b.png does not end with /a.b), so
findImage returns nothing even though the extension appended key exists. -/
theorem C6_counterexample :
    findImage [("a.b.png", 0)] "a.b" = none ∧
    jsGet [(("a.b.png" : String), (0 : Nat))] (normalizePath "a.b" ++ ".png") =
      some 0 := by
  decide

end Spine

/-! ## Global stat aggregation (updateGlobalStats and the two pass fold,
src/utils/spineParser.ts lines 736 to 825) -/

namespace Aggregate

theorem foldl_preserve {σ α : Type} (P : σ → Prop) (f : σ → α → σ) :
    ∀ (l : List α) (s : σ), (∀ a ∈ l, ∀ s', P s' → P (f s' a)) → P s →
      P (l.foldl f s) := by
  intro l
  induction l with
  | nil => intro s _ hs; exact hs
  | cons a as ih =>
    intro s hstep hs
    simp only [List.foldl_cons]
    exact ih (f s a) (fun b hb s' hs' => hstep b (by simp [hb]) s' hs')
      (hstep a (by simp) s hs)

/-- The fields of a FoundImageResult that the aggregation reads. -/
structure FoundImg where
  path : String
  lookupKey : String
  originalWidth : Int
  originalHeight : Int
  physicalWidth : Option Int
  physicalHeight : Option Int
  maxRenderWidth : Int
  maxRenderHeight : Int
  maxScaleX : Rat
  maxScaleY : Rat
  maxFrameIndex : Int
  isOverridden : Bool
  skinName : String
  overridePercentage : Option Rat
  isLocalScaleOverridden : Bool
deriving DecidableEq, Repr

/-- One per animation AnalysisResult as far as the aggregation reads it. -/
structure AnimResult where
  animationName : String
  isSetupPose : Bool
  foundImages : List FoundImg
deriving DecidableEq, Repr

/-- The reserved name of the synthetic setup pose result. -/
def setupPoseName : String := "Setup Pose (Default)"

/-- The GlobalAssetStat record written by updateGlobalStats for an image. -/
def mkStat (img : FoundImg) (animName skeletonName : String) :
    GlobalAssetStat :=
  ⟨img.path, img.lookupKey, img.originalWidth, img.originalHeight,
   img.physicalWidth, img.physicalHeight, img.maxRenderWidth,
   img.maxRenderHeight, img.maxScaleX, img.maxScaleY, animName, skeletonName,
   img.maxFrameIndex, img.isOverridden, img.skinName, img.overridePercentage⟩

/-- updateGlobalStats from src/utils/spineParser.ts: skip locally overridden
records; first observation creates the entry; a setup pose observation never
touches an entry whose source is an animation; otherwise strictly larger area
replaces, and on equal area a non default skin name is copied onto an entry
holding the default skin. -/
def updateGlobalStats (skeletonName : String)
    (m : List (String × GlobalAssetStat)) (img : FoundImg)
    (animName : String) : List (String × GlobalAssetStat) :=
  if img.isLocalScaleOverridden then m
  else
    let area := img.maxRenderWidth * img.maxRenderHeight
    match jsGet m img.lookupKey with
    | none => mapSet m img.lookupKey (mkStat img animName skeletonName)
    | some current =>
      if animName = setupPoseName ∧ current.sourceAnimation ≠ setupPoseName
      then m
      else
        let currentArea := current.maxRenderWidth * current.maxRenderHeight
        if area > currentArea then
          mapSet m img.lookupKey (mkStat img animName skeletonName)
        else if area = currentArea then
          if img.skinName ≠ "" ∧ img.skinName ≠ "default" ∧
             (current.skinName = "" ∨ current.skinName = "default") then
            mapSet m img.lookupKey { current with skinName := img.skinName }
          else m
        else m

/-- Fold of updateGlobalStats over the found images of a result list. -/
def processResults (skeletonName : String)
    (m : List (String × GlobalAssetStat)) (rs : List AnimResult) :
    List (String × GlobalAssetStat) :=
  rs.foldl
    (fun m r => r.foundImages.foldl
      (fun m img => updateGlobalStats skeletonName m img r.animationName) m) m

/-- Pass 1 of the aggregation: animation results only. -/
def animationPassStats (skeletonName : String) (results : List AnimResult) :
    List (String × GlobalAssetStat) :=
  processResults skeletonName [] (results.filter (fun r => !r.isSetupPose))

/-- Both aggregation passes of analyzeSpineData: animations first, then the
setup pose results. -/
def aggregateGlobalStats (skeletonName : String) (results : List AnimResult) :
    List (String × GlobalAssetStat) :=
  processResults skeletonName (animationPassStats skeletonName results)
    (results.filter (fun r => r.isSetupPose))

theorem updateGlobalStats_lookup_ne (skeletonName : String)
    (m : List (String × GlobalAssetStat)) (img : FoundImg) (animName : String)
    (k : String) (hk : k ≠ img.lookupKey) :
    jsGet (updateGlobalStats skeletonName m img animName) k = jsGet m k := by
  unfold updateGlobalStats
  by_cases hskip : img.isLocalScaleOverridden
  · rw [if_pos hskip]
  · rw [if_neg hskip]
    cases hcur : jsGet m img.lookupKey with
    | none => exact jsGet_mapSet_ne m img.lookupKey k _ hk
    | some current =>
        dsimp only
        split
        · rfl
        · split
          · exact jsGet_mapSet_ne m img.lookupKey k _ hk
          · split
            · split
              · exact jsGet_mapSet_ne m img.lookupKey k _ hk
              · rfl
            · rfl

/-- Per entry source invariant: updating with a non setup animation name
leaves every entry with a non setup source. -/
theorem updateGlobalStats_source_inv (skeletonName : String)
    (m : List (String × GlobalAssetStat)) (img : FoundImg) (animName : String)
    (hanim : animName ≠ setupPoseName)
    (hm : ∀ k e, jsGet m k = some e → e.sourceAnimation ≠ setupPoseName) :
    ∀ k e, jsGet (updateGlobalStats skeletonName m img animName) k = some e →
      e.sourceAnimation ≠ setupPoseName := by
  intro k e he
  by_cases hk : k = img.lookupKey
  case neg =>
    rw [updateGlobalStats_lookup_ne skeletonName m img animName k hk] at he
    exact hm k e he
  case pos =>
    rw [hk] at he
    unfold updateGlobalStats at he
    by_cases hskip : img.isLocalScaleOverridden
    · rw [if_pos hskip] at he
      exact hm _ e he
    · rw [if_neg hskip] at he
      cases hcur : jsGet m img.lookupKey with
      | none =>
          rw [hcur] at he
          dsimp only at he
          rw [jsGet_mapSet_self] at he
          injection he with he
          rw [← he]
          exact hanim
      | some current =>
          rw [hcur] at he
          dsimp only at he
          have hcursrc := hm _ current hcur
          split at he
          · exact hm _ e he
          · split at he
            · rw [jsGet_mapSet_self] at he
              injection he with he
              rw [← he]
              exact hanim
            · split at he
              · split at he
                · rw [jsGet_mapSet_self] at he
                  injection he with he
                  rw [← he]
                  exact hcursrc
                · rw [hcur] at he
                  injection he with he
                  rw [← he]
                  exact hcursrc
              · rw [hcur] at he
                injection he with he
                rw [← he]
                exact hcursrc

theorem processResults_source_inv (skeletonName : String)
    (rs : List AnimResult) (m : List (String × GlobalAssetStat))
    (hnames : ∀ r ∈ rs, r.animationName ≠ setupPoseName)
    (hm : ∀ k e, jsGet m k = some e → e.sourceAnimation ≠ setupPoseName) :
    ∀ k e, jsGet (processResults skeletonName m rs) k = some e →
      e.sourceAnimation ≠ setupPoseName := by
  unfold processResults
  refine foldl_preserve
    (fun m => ∀ k e, jsGet m k = some e → e.sourceAnimation ≠ setupPoseName)
    _ rs m ?_ hm
  intro r hr m' hm'
  exact foldl_preserve _ _ r.foundImages m'
    (fun img _ m'' hm'' =>
      updateGlobalStats_source_inv skeletonName m'' img r.animationName
        (hnames r hr) hm'')
    hm'

theorem updateGlobalStats_setup_preserve (skeletonName : String)
    (m : List (String × GlobalAssetStat)) (img : FoundImg) (animName : String)
    (k : String) (e : GlobalAssetStat) (hanim : animName = setupPoseName)
    (he : jsGet m k = some e) (hsrc : e.sourceAnimation ≠ setupPoseName) :
    jsGet (updateGlobalStats skeletonName m img animName) k = some e := by
  by_cases hk : k = img.lookupKey
  case neg =>
    rw [updateGlobalStats_lookup_ne skeletonName m img animName k hk]
    exact he
  case pos =>
    rw [hk] at he ⊢
    unfold updateGlobalStats
    by_cases hskip : img.isLocalScaleOverridden
    · rw [if_pos hskip]
      exact he
    · rw [if_neg hskip, he]
      dsimp only
      rw [if_pos ⟨hanim, hsrc⟩]
      exact he

/-- Invariant of the setup pass at one key: either no entry yet, or an entry
created by the setup pose. -/
def setupInv (k : String) (m : List (String × GlobalAssetStat)) : Prop :=
  jsGet m k = none ∨
    ∃ e', jsGet m k = some e' ∧ e'.sourceAnimation = setupPoseName

theorem updateGlobalStats_setup_created_step (skeletonName : String)
    (m : List (String × GlobalAssetStat)) (img : FoundImg) (animName : String)
    (k : String) (hanim : animName = setupPoseName) (hinv : setupInv k m) :
    setupInv k (updateGlobalStats skeletonName m img animName) := by
  by_cases hk : k = img.lookupKey
  case neg =>
    unfold setupInv at hinv ⊢
    rw [updateGlobalStats_lookup_ne skeletonName m img animName k hk]
    exact hinv
  case pos =>
    unfold setupInv at hinv ⊢
    rw [hk] at hinv ⊢
    unfold updateGlobalStats
    by_cases hskip : img.isLocalScaleOverridden
    · rw [if_pos hskip]
      exact hinv
    · rw [if_neg hskip]
      rcases hinv with hnone | ⟨e', he', hsrc'⟩
      · rw [hnone]
        dsimp only
        exact .inr ⟨mkStat img animName skeletonName, jsGet_mapSet_self _ _ _,
          hanim⟩
      · rw [he']
        dsimp only
        rw [if_neg (by intro hcontra; exact hcontra.2 hsrc')]
        split
        · exact .inr ⟨mkStat img animName skeletonName,
            jsGet_mapSet_self _ _ _, hanim⟩
        · split
          · split
            · exact .inr ⟨{ e' with skinName := img.skinName },
                jsGet_mapSet_self _ _ _, hsrc'⟩
            · exact .inr ⟨e', he', hsrc'⟩
          · exact .inr ⟨e', he', hsrc'⟩

theorem processResults_setup_preserve (skeletonName : String)
    (rs : List AnimResult) (m : List (String × GlobalAssetStat))
    (k : String) (e : GlobalAssetStat)
    (hnames : ∀ r ∈ rs, r.animationName = setupPoseName)
    (he : jsGet m k = some e) (hsrc : e.sourceAnimation ≠ setupPoseName) :
    jsGet (processResults skeletonName m rs) k = some e := by
  unfold processResults
  refine foldl_preserve (fun m => jsGet m k = some e) _ rs m ?_ he
  intro r hr m' hm'
  exact foldl_preserve _ _ r.foundImages m'
    (fun img _ m'' hm'' =>
      updateGlobalStats_setup_preserve skeletonName m'' img r.animationName
        k e (hnames r hr) hm'' hsrc)
    hm'

theorem processResults_setup_created (skeletonName : String)
    (rs : List AnimResult) (m : List (String × GlobalAssetStat)) (k : String)
    (hnames : ∀ r ∈ rs, r.animationName = setupPoseName)
    (hinv : setupInv k m) (e : GlobalAssetStat)
    (he : jsGet (processResults skeletonName m rs) k = some e) :
    e.sourceAnimation = setupPoseName := by
  have hfinal : setupInv k (processResults skeletonName m rs) := by
    unfold processResults
    refine foldl_preserve (setupInv k) _ rs m ?_ hinv
    intro r hr m' hm'
    exact foldl_preserve _ _ r.foundImages m'
      (fun img _ m'' hm'' =>
        updateGlobalStats_setup_created_step skeletonName m'' img
          r.animationName k (hnames r hr) hm'')
      hm'
  rcases hfinal with hnone | ⟨e', he', hsrc'⟩
  · rw [he] at hnone
    exact absurd hnone (by simp)
  · rw [he] at he'
    injection he' with he'
    rw [← he'] at hsrc'
    exact hsrc'

/-- C1 (amended): in the aggregation of per animation results into global
stats, provided no animation result carries the reserved name
Setup Pose (Default), once any non setup animation has contributed an entry
for an image key, the setup pose pass leaves that entry untouched (even when
the setup pose render area is strictly larger), and every entry the setup
pass creates for a key no animation contributed carries the setup pose
source.  Without the name proviso the priority check, which distinguishes
setup purely by the result name, can be defeated (see the counterexample). -/
theorem C1_setup_pose_exclusion (skeletonName : String)
    (results : List AnimResult)
    (hanims : ∀ r ∈ results, r.isSetupPose = false →
      r.animationName ≠ setupPoseName)
    (hsetups : ∀ r ∈ results, r.isSetupPose = true →
      r.animationName = setupPoseName) :
    (∀ k e, jsGet (animationPassStats skeletonName results) k = some e →
      jsGet (aggregateGlobalStats skeletonName results) k = some e) ∧
    (∀ k e, jsGet (animationPassStats skeletonName results) k = none →
      jsGet (aggregateGlobalStats skeletonName results) k = some e →
      e.sourceAnimation = setupPoseName) := by
  have hnames1 : ∀ r ∈ results.filter (fun r => !r.isSetupPose),
      r.animationName ≠ setupPoseName := by
    intro r hr
    rw [List.mem_filter] at hr
    exact hanims r hr.1 (by simpa using hr.2)
  have hnames2 : ∀ r ∈ results.filter (fun r => r.isSetupPose),
      r.animationName = setupPoseName := by
    intro r hr
    rw [List.mem_filter] at hr
    exact hsetups r hr.1 hr.2
  constructor
  · intro k e he
    have hsrc : e.sourceAnimation ≠ setupPoseName :=
      processResults_source_inv skeletonName _ [] hnames1
        (by intro k' e' h'; exact absurd h' (by simp [jsGet])) k e he
    exact processResults_setup_preserve skeletonName _ _ k e hnames2 he hsrc
  · intro k e hnone he
    exact processResults_setup_created skeletonName _ _ k hnames2
      (Or.inl hnone) e he

/-- Small non setup contribution for the C1 inputs: image a at 1 by 1. -/
def imgSmall : FoundImg :=
  ⟨"a", "a", 1, 1, none, none, 1, 1, 1, 1, 0, false, "default", none, false⟩

/-- Larger setup pose contribution for the same image key: 2 by 2. -/
def imgBig : FoundImg :=
  ⟨"a", "a", 1, 1, none, none, 2, 2, 1, 1, 0, false, "default", none, false⟩

/-- A well formed result list: an animation named idle, then the setup pose. -/
def resultsNormal : List AnimResult :=
  [⟨"idle", false, [imgSmall]⟩, ⟨setupPoseName, true, [imgBig]⟩]

/-- A result list whose animation is named exactly Setup Pose (Default). -/
def resultsNameClash : List AnimResult :=
  [⟨setupPoseName, false, [imgSmall]⟩, ⟨setupPoseName, true, [imgBig]⟩]

/-- Witness for C1: with the idle animation contributing 1 by 1 and the setup
pose 2 by 2 for the same key, the merged entry stays the idle entry. -/
theorem C1_witness :
    jsGet (aggregateGlobalStats "Skel" resultsNormal) "a" =
      some (mkStat imgSmall "idle" "Skel") := by
  have h := C1_setup_pose_exclusion "Skel" resultsNormal
    (by decide) (by decide)
  exact h.1 "a" (mkStat imgSmall "idle" "Skel") (by decide)

/-- C1 counterexample: the priority rule distinguishes the setup pose purely
by the result name, so an animation named exactly Setup Pose (Default)
(a legal animation key in the skeleton JSON) is later replaced by a larger
setup pose observation, violating the claim as stated: after pass 1 the entry
for key a has width 1 from the non setup animation, yet the final entry has
width 2 from the setup pose. -/
theorem C1_counterexample :
    (jsGet (animationPassStats "Skel" resultsNameClash) "a").map
        (fun e => (e.maxRenderWidth, e.sourceAnimation)) =
      some (1, setupPoseName) ∧
    (jsGet (aggregateGlobalStats "Skel" resultsNameClash) "a").map
        (fun e => e.maxRenderWidth) = some 2 := by
  decide

end Aggregate

/-! ## Atlas manifest parser (parseAtlas, src/utils/atlasParser.ts) -/

namespace Atlas

/-- String.prototype.trim. -/
def trimS (s : String) : String := String.mk (Spine.trimChars s.toList)

/-- Split on newlines, consuming one carriage return immediately before each
newline (the split on the \\r?\\n regex). -/
def stripCR (accRev : List Char) : List Char :=
  match accRev with
  | '\r' :: rest => rest
  | _ => accRev

def splitLinesAux : List Char → List Char → List String
  | [], accRev => [String.mk accRev.reverse]
  | c :: cs, accRev =>
      if c = '\n' then
        String.mk (stripCR accRev).reverse :: splitLinesAux cs []
      else splitLinesAux cs (c :: accRev)

def splitLines (s : String) : List String := splitLinesAux s.toList []

/-- String.prototype.split on a single character. -/
def splitOnCharAux (c : Char) : List Char → List Char → List String
  | [], accRev => [String.mk accRev.reverse]
  | d :: ds, accRev =>
      if d = c then String.mk accRev.reverse :: splitOnCharAux c ds []
      else splitOnCharAux c ds (d :: accRev)

def splitOnChar (s : String) (c : Char) : List String :=
  splitOnCharAux c s.toList []

/-- First index of a character (String.prototype.indexOf). -/
def indexOfChar : List Char → Char → Option Nat
  | [], _ => none
  | d :: ds, c =>
      if d = c then some 0 else (indexOfChar ds c).map (· + 1)

/-- parseInt in base 10: skip leading whitespace, optional sign, leading
digits; none models NaN (and, where a pair component is absent, undefined). -/
def parseIntOpt (s : String) : Option Int :=
  let cs := s.toList.dropWhile Char.isWhitespace
  let signed : Int × List Char :=
    match cs with
    | '-' :: rest => (-1, rest)
    | '+' :: rest => (1, rest)
    | _ => (1, cs)
  let digits := signed.2.takeWhile Char.isDigit
  if digits.isEmpty then none
  else some (signed.1 *
    ((digits.foldl (fun n c => n * 10 + (c.toNat - 48)) 0 : Nat) : Int))

def lowerS (s : String) : String := String.mk (s.toList.map Char.toLower)

/-- The trailing extension recognised by the cleanse regex, case insensitive;
the four alternatives are mutually exclusive as suffixes. -/
def matchExt (s : String) : Option String :=
  if Spine.endsWithS (lowerS s) ".png" then some ".png"
  else if Spine.endsWithS (lowerS s) ".jpg" then some ".jpg"
  else if Spine.endsWithS (lowerS s) ".jpeg" then some ".jpeg"
  else if Spine.endsWithS (lowerS s) ".webp" then some ".webp"
  else none

def dropRightS (s : String) (n : Nat) : String :=
  String.mk (s.toList.take (s.toList.length - n))

/-- Strip all trailing extension suffixes.  Every strip removes at least four
characters, so a fuel equal to the string length always suffices and the fuel
exhausted branch is unreachable. -/
def stripExtsAux : Nat → String → String
  | 0, s => s
  | fuel + 1, s =>
      match matchExt s with
      | some e => stripExtsAux fuel (dropRightS s (Spine.strLen e))
      | none => s

def stripExts (s : String) : String := stripExtsAux (Spine.strLen s) s

/-- cleanseAtlasPageName from src/utils/atlasParser.ts: trim, backslashes to
slashes, detect the intended extension (default .png), strip every trailing
extension, re-append the intended one. -/
def cleanseAtlasPageName (fileName : String) : String :=
  let name := String.mk ((Spine.trimChars fileName.toList).map
    (fun c => if c = '\\' then '/' else c))
  let ext := (matchExt name).getD ".png"
  stripExts name ++ ext

/-- AtlasRegion record; numeric fields are Option Int, where none models the
NaN or undefined a malformed property line stores in the source. -/
structure AtlasRegion where
  pageName : String
  name : String
  rotated : Bool
  x : Option Int
  y : Option Int
  width : Option Int
  height : Option Int
  originalWidth : Option Int
  originalHeight : Option Int
  offsetX : Option Int
  offsetY : Option Int
  index : Option Int
deriving DecidableEq, Repr

/-- Parser state: the region map, the current page and the pending region.
The source keeps the pending region name in its own variable, always set and
cleared together with the region, so the region record carries it here. -/
structure ParseState where
  map : List (String × AtlasRegion)
  currentPage : Option String
  currentRegion : Option AtlasRegion
deriving Repr

/-- Property keys recognised on region or page lines. -/
def propertyKeys : List String :=
  ["rotate", "xy", "size", "orig", "offset", "index",
   "format", "filter", "repeat", "bounds", "split", "pad"]

/-- val.split(the comma).map(parseInt of trim) destructured as a pair. -/
def parsePair (val : String) : Option Int × Option Int :=
  let parts := splitOnChar val ','
  ((parts.get? 0).bind (fun p => parseIntOpt (trimS p)),
   (parts.get? 1).bind (fun p => parseIntOpt (trimS p)))

def applyProperty (key val : String) (r : AtlasRegion) : AtlasRegion :=
  if key = "rotate" then { r with rotated := val = "true" }
  else if key = "xy" then
    { r with x := (parsePair val).1, y := (parsePair val).2 }
  else if key = "size" then
    { r with width := (parsePair val).1, height := (parsePair val).2 }
  else if key = "orig" then
    { r with originalWidth := (parsePair val).1,
             originalHeight := (parsePair val).2 }
  else if key = "offset" then
    { r with offsetX := (parsePair val).1, offsetY := (parsePair val).2 }
  else if key = "index" then { r with index := parseIntOpt val }
  else r

/-- Flush the pending region into the map, keyed by its region name. -/
def flushRegion (st : ParseState) : List (String × AtlasRegion) :=
  match st.currentRegion with
  | some r => mapSet st.map r.name r
  | none => st.map

/-- The initial record for a freshly declared region. -/
def freshRegion (page line : String) : AtlasRegion :=
  ⟨page, line, false, some 0, some 0, some 0, some 0, some 0, some 0,
   some 0, some 0, some (-1)⟩

/-- One line of the parseAtlas loop. -/
def processLine (st : ParseState) (rawLine : String) : ParseState :=
  let line := trimS rawLine
  if Spine.strLen line = 0 then
    ⟨flushRegion st, none, none⟩
  else
    match st.currentPage with
    | none => ⟨st.map, some (cleanseAtlasPageName line), st.currentRegion⟩
    | some page =>
      match indexOfChar line.toList ':' with
      | some i =>
          let key := trimS (String.mk (line.toList.take i))
          let val := trimS (String.mk (line.toList.drop (i + 1)))
          if propertyKeys.contains key then
            match st.currentRegion with
            | some r => ⟨st.map, st.currentPage, some (applyProperty key val r)⟩
            | none => st
          else
            ⟨flushRegion st, st.currentPage, some (freshRegion page line)⟩
      | none =>
          ⟨flushRegion st, st.currentPage, some (freshRegion page line)⟩

/-- parseAtlas from src/utils/atlasParser.ts: fold the lines through the
state machine and flush the final pending region. -/
def parseAtlas (content : String) : List (String × AtlasRegion) :=
  let lines := splitLines content
  let st := lines.foldl processLine ⟨[], none, none⟩
  flushRegion st

theorem jsGet_none_not_mem {β : Type} (m : List (String × β)) (k : String)
    (h : jsGet m k = none) : k ∉ m.map Prod.fst := by
  intro hmem
  obtain ⟨d, hd⟩ := Spine.jsGet_of_mem_keys m k hmem
  rw [h] at hd
  exact absurd hd (by simp)

theorem mapSet_keys_nodup {β : Type} (m : List (String × β)) (k : String)
    (v : β) (h : (m.map Prod.fst).Nodup) :
    ((mapSet m k v).map Prod.fst).Nodup := by
  unfold mapSet
  by_cases hs : (jsGet m k).isSome
  · rw [if_pos hs]
    have hkeys : (m.map (fun p => if p.1 = k then (k, v) else p)).map Prod.fst
        = m.map Prod.fst := by
      rw [List.map_map]
      apply List.map_congr_left
      intro p _
      by_cases hp : p.1 = k
      · simp [hp]
      · simp [hp]
    rw [hkeys]
    exact h
  · rw [if_neg hs]
    have hnone : jsGet m k = none := by
      cases hg : jsGet m k with
      | none => rfl
      | some v' => rw [hg] at hs; simp at hs
    rw [List.map_append]
    rw [List.nodup_append]
    refine ⟨h, by simp, ?_⟩
    intro a ha hb
    simp only [List.map_cons, List.map_nil, List.mem_singleton] at hb
    rw [hb] at ha
    exact jsGet_none_not_mem m k hnone ha

theorem flushRegion_keys_nodup (st : ParseState)
    (h : (st.map.map Prod.fst).Nodup) :
    ((flushRegion st).map Prod.fst).Nodup := by
  unfold flushRegion
  cases st.currentRegion with
  | none => exact h
  | some r => exact mapSet_keys_nodup st.map r.name r h

theorem processLine_keys_nodup (st : ParseState) (rawLine : String)
    (h : (st.map.map Prod.fst).Nodup) :
    ((processLine st rawLine).map.map Prod.fst).Nodup := by
  unfold processLine
  by_cases hempty : Spine.strLen (trimS rawLine) = 0
  · rw [if_pos hempty]
    exact flushRegion_keys_nodup st h
  · rw [if_neg hempty]
    cases st.currentPage with
    | none => exact h
    | some page =>
        dsimp only
        cases indexOfChar (trimS rawLine).toList ':' with
        | some i =>
            dsimp only
            split
            · cases st.currentRegion with
              | some r => exact h
              | none => exact h
            · exact flushRegion_keys_nodup st h
        | none => exact flushRegion_keys_nodup st h

/-- Manifest declaring the same region name on two different pages. -/
def dupManifest : String :=
  "page1.png\nsword\nxy: 1, 2\nsize: 3, 4\n\npage2.png\nsword\nxy: 5, 6\nsize: 7, 8"

/-- C10: parseAtlas keys its output by region name: for every manifest the
result holds at most one record per region name (its keys are pairwise
distinct), and for a manifest declaring the region sword on two pages the
single record for sword holds the later declaration (page2.png at 5, 6 with
size 7, 8). -/
theorem C10_atlas_keyed_by_region_name :
    (∀ content : String, ((parseAtlas content).map Prod.fst).Nodup) ∧
    parseAtlas dupManifest =
      [("sword", ⟨"page2.png", "sword", false, some 5, some 6, some 7, some 8,
        some 0, some 0, some 0, some 0, some (-1)⟩)] := by
  constructor
  · intro content
    unfold parseAtlas
    apply flushRegion_keys_nodup
    refine Aggregate.foldl_preserve
      (fun st : ParseState => (st.map.map Prod.fst).Nodup) processLine
      (splitLines content) ⟨[], none, none⟩ ?_ (by simp)
    intro line _ st hst
    exact processLine_keys_nodup st line hst
  · decide

end Atlas

end SpineOpt

